import Mathlib

/-!
Formal model of the Cameroonian-CNI OCR field-extraction engine of this
repository (classes `CNIExtractor18F`, `CNIExtractor18B`, `CNIExtractor25B`
in `src/ocr/extractors/`).  Python floats are modelled by exact rationals
(`ℚ`); Python strings by Lean `String` (the data processed by the engine is
ASCII); a Python `dict` returned by a method is modelled by a structure whose
`Option` fields record which keys are present; Python exceptions
(`ZeroDivisionError` raised by `calculate_center` on an empty polygon) are
modelled by `Except String`.  All extractor instances in the repository are
built with the default constructor arguments (`quality_threshold = 0.5`,
`similarity_threshold = 0.70`), so those thresholds appear as the literals
`1/2` and `7/10`.
-/

namespace OcrPoc

/-- Whitespace test used to model Python `str.strip()` / `str.split()`
(the engine's data is ASCII, where Lean's `Char.isWhitespace` and Python's
notion agree). -/
def isSp (c : Char) : Bool := c.isWhitespace

/-- Model of Python `str.strip()` on the character list: drop whitespace
from both ends. -/
def stripChars (l : List Char) : List Char :=
  ((l.dropWhile isSp).reverse.dropWhile isSp).reverse

/-- Model of Python `str.strip()`. -/
def pyStrip (s : String) : String := String.mk (stripChars s.toList)

/-- Model of Python `str.upper()` (ASCII data). -/
def pyUpper (s : String) : String := String.mk (s.toList.map Char.toUpper)

/-- Decimal-digit test modelling the regex class `\d` on the engine's ASCII
data. -/
def isDig (c : Char) : Bool := c.isDigit

/-- Uppercase-letter test modelling Python `str.isupper()` on one ASCII
character. -/
def isUpAZ (c : Char) : Bool := 'A' ≤ c && c ≤ 'Z'

/-- Does `l` start with pattern `p`?  (helper for Python `startswith` and
substring tests). -/
def startsL : List Char → List Char → Bool
  | [], _ => true
  | _ :: _, [] => false
  | p :: ps, c :: cs => p == c && startsL ps cs

/-- Is `pat` a contiguous substring of `l`?  Models Python `pat in s`. -/
def subOf (pat : List Char) : List Char → Bool
  | [] => startsL pat []
  | c :: cs => startsL pat (c :: cs) || subOf pat cs

/-- Model of Python `sub in s` on strings. -/
def strIn (sub s : String) : Bool := subOf sub.toList s.toList

/-- Helper for Python `str.split()`: words of a character list, splitting on
whitespace runs and discarding empties.  The fuel argument is the length of
the list being consumed. -/
def wordsGo : Nat → List Char → List (List Char)
  | 0, _ => []
  | _, [] => []
  | fuel + 1, c :: cs =>
    if isSp c then wordsGo fuel cs
    else (c :: cs.takeWhile (fun d => !isSp d)) ::
      wordsGo fuel (cs.dropWhile (fun d => !isSp d))

/-- Model of Python `str.split()` (no separator argument). -/
def wordsOf (s : String) : List String :=
  (wordsGo s.toList.length s.toList).map String.mk

/-- Python truthiness of an optional string (`None` and `""` are falsy):
the extractors test extracted values with bare `if value:` / `if not
results[field]:`. -/
def truthy : Option String → Bool
  | none => false
  | some s => decide (s ≠ "")

/-!
Model of `difflib.SequenceMatcher(None, a, b).ratio()` as used by
`similarity_score`.  The strings compared are far shorter than 200
characters, so difflib's autojunk never marks any character as junk and the
junk-skipping branches of difflib are inert; the model therefore implements
the plain Ratcliff/Obershelp computation: repeatedly find the longest
matching block (ties resolved towards the earliest position in `a`, then in
`b`, exactly as difflib's scan order does) and recurse on both sides, and
return `2 * matched / (len a + len b)`.
-/

/-- Positions `j` of character `c` in `b` with `blo ≤ j < bhi`, ascending:
difflib's `b2j[a[i]]` restricted to the current window. -/
def occJ (b : List Char) (c : Char) (blo bhi : Nat) : List Nat :=
  (List.range b.length).filter (fun j => blo ≤ j && j < bhi && b.getD j ' ' == c)

/-- One row of difflib `find_longest_match`'s dynamic program: processes
position `i` of `a`, taking the previous row `old` (`j2len`) and the best
block so far, returning the new row and best block. -/
def flmRow (a b : List Char) (blo bhi i : Nat)
    (old : Nat → Nat) (best : Nat × Nat × Nat) : (Nat → Nat) × (Nat × Nat × Nat) :=
  (occJ b (a.getD i ' ') blo bhi).foldl
    (fun acc j =>
      let k := (if j = 0 then 0 else old (j - 1)) + 1
      let row := fun j' => if j' = j then k else acc.1 j'
      let best' := if acc.2.2.2 < k then (i + 1 - k, j + 1 - k, k) else acc.2
      (row, best'))
    ((fun _ => 0), best)

/-- Core loop of difflib `find_longest_match` over `i ∈ [alo, ahi)`.
Returns `(besti, bestj, bestsize)`. -/
def flmCore (a b : List Char) (alo ahi blo bhi : Nat) : Nat × Nat × Nat :=
  ((List.range' alo (ahi - alo)).foldl
    (fun acc i => flmRow a b blo bhi i acc.1 acc.2)
    ((fun _ => 0), (alo, blo, 0))).2

/-- Backward extension loop of difflib `find_longest_match` (with no junk
characters): extend the block while the preceding characters match.  Fuel is
`besti`. -/
def extendBack (a b : List Char) (alo blo : Nat) :
    Nat → Nat → Nat → Nat → Nat × Nat × Nat
  | 0, bi, bj, bs => (bi, bj, bs)
  | fuel + 1, bi, bj, bs =>
    if alo < bi && blo < bj && (a.getD (bi - 1) ' ' == b.getD (bj - 1) ' ') then
      extendBack a b alo blo fuel (bi - 1) (bj - 1) (bs + 1)
    else (bi, bj, bs)

/-- Forward extension loop of difflib `find_longest_match` (with no junk
characters).  Fuel is `ahi`. -/
def extendFwd (a b : List Char) (ahi bhi : Nat) :
    Nat → Nat → Nat → Nat → Nat × Nat × Nat
  | 0, bi, bj, bs => (bi, bj, bs)
  | fuel + 1, bi, bj, bs =>
    if bi + bs < ahi && bj + bs < bhi && (a.getD (bi + bs) ' ' == b.getD (bj + bs) ' ') then
      extendFwd a b ahi bhi fuel bi bj (bs + 1)
    else (bi, bj, bs)

/-- difflib `find_longest_match` on the windows `a[alo:ahi]`, `b[blo:bhi]`
(no junk). -/
def findLongestMatch (a b : List Char) (alo ahi blo bhi : Nat) : Nat × Nat × Nat :=
  let c := flmCore a b alo ahi blo bhi
  let e := extendBack a b alo blo c.1 c.1 c.2.1 c.2.2
  extendFwd a b ahi bhi ahi e.1 e.2.1 e.2.2

/-- Total number of matched characters over difflib's matching blocks
(recursive split around each longest block).  Fuel bounds the recursion
depth; `len a + len b + 1` always suffices since each recursive window is
strictly smaller. -/
def matchTotal (a b : List Char) : Nat → Nat → Nat → Nat → Nat → Nat
  | 0, _, _, _, _ => 0
  | fuel + 1, alo, ahi, blo, bhi =>
    let m := findLongestMatch a b alo ahi blo bhi
    if m.2.2 = 0 then 0
    else
      matchTotal a b fuel alo m.1 blo m.2.1 + m.2.2 +
        matchTotal a b fuel (m.1 + m.2.2) ahi (m.2.1 + m.2.2) bhi

/-- Model of `SequenceMatcher(None, a, b).ratio()`: `2 M / (|a| + |b|)`
(and `1.0` when both strings are empty, as in difflib's `_calculate_ratio`). -/
def smRatio (a b : List Char) : ℚ :=
  let m := matchTotal a b (a.length + b.length + 1) 0 a.length 0 b.length
  if a.length + b.length = 0 then 1 else (2 * m : ℚ) / (a.length + b.length)

/-- Length of the common leading run of two character lists, stopping at the
first mismatch and after at most `n` positions: the `prefix_match` loop of
`similarity_score` uses `n = min 4 (min |s1| |s2|)`. -/
def leadRun : Nat → List Char → List Char → Nat
  | 0, _, _ => 0
  | _ + 1, [], _ => 0
  | _ + 1, _, [] => 0
  | n + 1, c :: cs, d :: ds => if c == d then 1 + leadRun n cs ds else 0

/-- Model of `similarity_score` (the method body is identical in all three
extractor classes): normalise both strings with `upper().strip()`, take the
`SequenceMatcher` ratio, add the Jaro-Winkler-style bonus
`prefix_match * 0.1 * (1 - base)`, and cap at `1.0`. -/
def similarity_score (str1 str2 : String) : ℚ :=
  let s1 := stripChars (str1.toList.map Char.toUpper)
  let s2 := stripChars (str2.toList.map Char.toUpper)
  let base := smRatio s1 s2
  let pm : Nat := leadRun (min 4 (min s1.length s2.length)) s1 s2
  min (base + pm * (1 / 10) * (1 - base)) 1

/-!
Exact decision procedure for comparing two candidate scores of
`extract_by_proximity`.  The source ranks each candidate by the float value
`score * (1 / (1 + distance/100))` where `distance = sqrt(dx² + dy²)`.
The model keeps the exact squared distance `q = dx² + dy²` (a rational) and
decides the real-number comparison
`c₁ / (1 + √q₁/100) > c₂ / (1 + √q₂/100)` exactly: cross-multiplying by the
positive denominators, this is the sign of
`100(c₁ - c₂) + c₁·√q₂ - c₂·√q₁`, which `sgnTwoRoots` computes by repeated
squaring.
-/

/-- Sign of a rational, as an integer in `{-1, 0, 1}`. -/
def sgnQ (x : ℚ) : Int := if 0 < x then 1 else if x < 0 then -1 else 0

/-- Sign of `δ + ε·√w` for rationals with `0 ≤ w`. -/
def sgnAddRoot (δ ε w : ℚ) : Int :=
  let se : Int := if 0 < w then sgnQ ε else 0
  if se = 0 then sgnQ δ
  else if sgnQ δ = 0 then se
  else if sgnQ δ = se then se
  else if ε * ε * w < δ * δ then sgnQ δ
  else if δ * δ < ε * ε * w then se
  else 0

/-- Sign of `α + p·√u + r·√v` for rationals with `0 ≤ u` and `0 ≤ v`. -/
def sgnTwoRoots (α p u r v : ℚ) : Int :=
  let su : Int := if 0 < u then sgnQ p else 0
  let sv : Int := if 0 < v then sgnQ r else 0
  let sA : Int :=
    if su = 0 then sv
    else if sv = 0 then su
    else if su = sv then su
    else if r * r * v < p * p * u then su
    else if p * p * u < r * r * v then sv
    else 0
  if sA = 0 then sgnQ α
  else if sgnQ α = 0 then sA
  else if sgnQ α = sA then sA
  else
    let d := sgnAddRoot (α * α - p * p * u - r * r * v) (-(2 * p * r)) (u * v)
    if 0 < d then sgnQ α else if d < 0 then sA else 0

/-- Does candidate `(c₁, q₁)` score strictly higher than `(c₂, q₂)`?
Decides `c₁·(1/(1+√q₁/100)) > c₂·(1/(1+√q₂/100))` exactly (`q` is the
squared center distance). -/
def scoreGt (c1 q1 c2 q2 : ℚ) : Bool :=
  0 < sgnTwoRoots (100 * (c1 - c2)) c1 q2 (-c2) q1

/-- A proximity candidate as recorded by `extract_by_proximity`:
the token text, its OCR confidence, and the squared distance between the
token center and the anchor center (the source stores
`distance = sqrt sq_dist` and `score = conf * 1/(1 + distance/100)`). -/
structure Cand where
  text : String
  conf : ℚ
  sq_dist : ℚ
deriving Repr, DecidableEq

/-- Model of `max(candidates, key=lambda x: x['score'])`: Python's `max`
keeps the first element among equals and replaces it only on a strictly
greater key. -/
def bestCand (c : Cand) (cs : List Cand) : Cand :=
  cs.foldl (fun b x => if scoreGt x.conf x.sq_dist b.conf b.sq_dist then x else b) c

/-- A token as carried through the pipeline: `(text, score, polygon)`. -/
abbrev Poly := List (ℚ × ℚ)

/-- Tuple `(text, score, polygon)` as produced by `preprocess`. -/
abbrev Tok := String × ℚ × Poly

/-- The OCR payload consumed by `extract` (keys `rec_texts`, `rec_scores`,
`rec_polys` of the PaddleOCR result dict). -/
structure OcrData where
  rec_texts : List String
  rec_scores : List ℚ
  rec_polys : List Poly
deriving Repr

/-- Model of `calculate_center` (identical in all extractor classes):
arithmetic mean of the polygon points.  On an empty polygon the source
raises `ZeroDivisionError` (`len(x_coords)` is `0`), modelled as an
`Except.error`. -/
def calculate_center (polygon : Poly) : Except String (ℚ × ℚ) :=
  if polygon = [] then .error "ZeroDivisionError"
  else .ok ((polygon.map Prod.fst).sum / polygon.length,
            (polygon.map Prod.snd).sum / polygon.length)

/-- Candidate-collection loop of `extract_by_proximity` (identical in all
extractor classes up to the label classifier, passed here as `isLabel`):
skip the anchor index and label-like tokens, compute each remaining token's
center (which can raise on an empty polygon) and keep it as a candidate when
it lies strictly to the right of or below the anchor center. -/
def proxGo (isLabel : String → Bool) (ai : Nat) (c0 : ℚ × ℚ) :
    Nat → List Tok → Except String (List Cand)
  | _, [] => .ok []
  | i, (t, s, p) :: rest =>
    if i = ai then proxGo isLabel ai c0 (i + 1) rest
    else if isLabel t then proxGo isLabel ai c0 (i + 1) rest
    else
      match calculate_center p with
      | .error e => .error e
      | .ok vc =>
        match proxGo isLabel ai c0 (i + 1) rest with
        | .error e => .error e
        | .ok cs =>
          if c0.1 < vc.1 ∨ c0.2 < vc.2 then
            .ok ({ text := t, conf := s,
                   sq_dist := (vc.1 - c0.1) ^ 2 + (vc.2 - c0.2) ^ 2 } :: cs)
          else .ok cs

/-- Core of `extract_by_proximity` (identical in all extractor classes up to
the label classifier `isLabel`): out-of-range anchor indices return `None`;
otherwise the best-scoring candidate's text is returned, or `None` when no
candidate satisfies the directional constraint. -/
def proxCore (isLabel : String → Bool) (data : List Tok) (anchor_idx : Nat) :
    Except String (Option String) :=
  if data.length ≤ anchor_idx then .ok none
  else
    match calculate_center (data.getD anchor_idx ("", 0, [])).2.2 with
    | .error e => .error e
    | .ok c0 =>
      match proxGo isLabel anchor_idx c0 0 data with
      | .error e => .error e
      | .ok [] => .ok none
      | .ok (c :: cs) => .ok (some (bestCand c cs).text)

/-- Model of the shape test `^\d{1,2}[./]\d{1,2}[./]\d{4}$` (the
`date_pattern` of every extractor class). -/
def dateShaped (t : String) : Bool :=
  let l := t.toList
  let d1 := l.takeWhile isDig
  let r1 := l.dropWhile isDig
  (d1.length = 1 || d1.length = 2) &&
  match r1 with
  | s1 :: r2 =>
    (s1 == '.' || s1 == '/') &&
    (let d2 := r2.takeWhile isDig
     let r3 := r2.dropWhile isDig
     (d2.length = 1 || d2.length = 2) &&
     match r3 with
     | s2 :: r4 => (s2 == '.' || s2 == '/') && r4.length = 4 && r4.all isDig
     | [] => false)
  | [] => false

/-- Filter dropping the tokens whose position is listed in `rm`: models the
comprehension `[item for idx, item in enumerate(processed_data) if idx not in
fixed_fields['indices_removed']]` of `extract`. -/
def removeIndices (rm : List Nat) : Nat → List Tok → List Tok
  | _, [] => []
  | i, t :: ts =>
    if rm.contains i then removeIndices rm (i + 1) ts
    else t :: removeIndices rm (i + 1) ts

namespace CNI18F

/-- Anchor synonyms for `nom` (`self.anchors['nom']`). -/
def anchors_nom : List String := ["NOM", "SURNAME", "NOM/SURNAME"]

/-- Anchor synonyms for `prenom`. -/
def anchors_prenom : List String :=
  ["PRENOMS", "PRENOM", "GIVEN NAMES", "GIVEN NAME", "PRENOMS/GIVEN NAMES"]

/-- Anchor synonyms for `lieu_naissance`. -/
def anchors_lieu : List String :=
  ["LIEU DE NAISSANCE", "PLACE OF BIRTH", "LIEU DENAISSANCE", "PLACEOF BIRTH",
   "LIEU DE NAISSANCE/PLACEOF BIRTH"]

/-- Anchor synonyms for `profession`. -/
def anchors_profession : List String :=
  ["PROFESSION", "OCCUPATION", "PROFESSION/OCCUPATION"]

/-- The `self.all_labels` set: union of every anchor list with the extra
fixed labels.  The source stores a Python `set`; the model keeps a list
(possible duplicates are harmless since the set is only queried through
`any`-style scans). -/
def all_labels : List String :=
  anchors_nom ++ anchors_prenom ++ anchors_lieu ++ anchors_profession ++
  ["DATE DE NAISSANCE", "DATE OF BIRTH", "SEXE", "SEX", "TAILLE", "HEIGHT",
   "REPUBLIQUE", "CAMEROUN", "REPUBLIC", "CAMEROON",
   "CARTE", "NATIONALE", "IDENTITE", "IDENTITY", "CARD",
   "PROFESSION", "OCCUPATION", "SIGNATURE"]

/-- Model of `CNIExtractor18F.assess_quality`: returns
`(can_proceed, avg_score)`.  Missing or all-invalid scores yield
`(False, 0.0)`; otherwise the gate requires at least 8 valid scores, average
at least the default quality threshold `0.5`, and at least 5 scores above
`0.7`. -/
def assess_quality (d : OcrData) : Bool × ℚ :=
  if d.rec_scores = [] ∨ d.rec_texts = [] then (false, 0)
  else
    let valid := d.rec_scores.filter (fun s => 0 < s)
    if valid = [] then (false, 0)
    else
      let avg := valid.sum / (valid.length : ℚ)
      let good := (d.rec_scores.filter (fun s => (7 : ℚ) / 10 < s)).length
      (decide (8 ≤ valid.length) && decide ((1 : ℚ) / 2 ≤ avg) && decide (5 ≤ good),
       avg)

/-- Filter applied to each `(text, score, polygon)` triple by
`CNIExtractor18F.preprocess`: drop scores below `0.3`, strip the text and
drop it when empty, and drop stripped texts of length at most 2 containing a
non-Latin (code point above 127) character. -/
def preStep (x : String × ℚ × Poly) : Option Tok :=
  if x.2.1 < (3 : ℚ) / 10 then none
  else
    let t := pyStrip x.1
    if t = "" then none
    else if t.length ≤ 2 ∧ t.toList.any (fun c => 127 < c.toNat) then none
    else some (t, x.2.1, x.2.2)

/-- Model of `CNIExtractor18F.preprocess` over the three parallel lists
(Python's `zip` stops at the shortest, as does `List.zip`). -/
def preprocess (texts : List String) (scores : List ℚ) (polygons : List Poly) :
    List Tok :=
  (texts.zip (scores.zip polygons)).filterMap preStep

/-- Model of the `taille_pattern` regex `^[12][,.]?\d{2}$`. -/
def tailleShaped (t : String) : Bool :=
  match t.toList with
  | c :: rest =>
    (c == '1' || c == '2') &&
    (match rest with
     | s :: d1 :: d2 :: [] => (s == ',' || s == '.') && isDig d1 && isDig d2
     | d1 :: d2 :: [] => isDig d1 && isDig d2
     | _ => false)
  | [] => false

/-- Normalisation applied to a matched height: `text.replace('.', ',')`,
then insert a comma after the leading digit when the three-character form
has none. -/
def normalizeTaille (t : String) : String :=
  let r := t.toList.map (fun c => if c == '.' then ',' else c)
  if r.contains ',' = false ∧ r.length = 3 then
    String.mk (r.take 1 ++ ',' :: r.drop 1)
  else String.mk r

/-- Result dict of `CNIExtractor18F.extract_fixed_format_fields`: the three
fixed-format fields plus the `indices_removed` list. -/
structure Fixed18F where
  date_naissance : Option String
  sexe : Option String
  taille : Option String
  indices_removed : List Nat
deriving Repr, DecidableEq

/-- Loop of `extract_fixed_format_fields`: for each token, fill the first
still-falsy matching category (date, then sexe, then taille) and record the
token's index in `indices_to_remove`; each branch `continue`s. -/
def fixedGo : Fixed18F → Nat → List Tok → Fixed18F
  | r, _, [] => r
  | r, i, (t, _, _) :: rest =>
    if truthy r.date_naissance = false ∧ dateShaped t then
      fixedGo { r with date_naissance := some t,
                       indices_removed := r.indices_removed ++ [i] } (i + 1) rest
    else if truthy r.sexe = false ∧ (t = "M" ∨ t = "F") then
      fixedGo { r with sexe := some t,
                       indices_removed := r.indices_removed ++ [i] } (i + 1) rest
    else if truthy r.taille = false ∧ tailleShaped t then
      fixedGo { r with taille := some (normalizeTaille t),
                       indices_removed := r.indices_removed ++ [i] } (i + 1) rest
    else fixedGo r (i + 1) rest

/-- Model of `CNIExtractor18F.extract_fixed_format_fields`. -/
def extract_fixed_format_fields (data : List Tok) : Fixed18F :=
  fixedGo ⟨none, none, none, []⟩ 0 data

/-- First synonym whose similarity with the uppercased token text reaches
the default anchor threshold `0.70` (the inner loop of `detect_anchors`
breaks on the first hit), returning its similarity score. -/
def first_hit (tU : String) : List String → Option ℚ
  | [] => none
  | a :: rest =>
    let sc := similarity_score tU a
    if (7 : ℚ) / 10 ≤ sc then some sc else first_hit tU rest

/-- Scan of `detect_anchors` for one field's synonym list: records
`(index, original text, similarity)` for every token accepted by
`first_hit`. -/
def detectGo (syns : List String) : Nat → List Tok → List (Nat × String × ℚ)
  | _, [] => []
  | i, (t, _, _) :: rest =>
    match first_hit (pyUpper t) syns with
    | some sc => (i, t, sc) :: detectGo syns (i + 1) rest
    | none => detectGo syns (i + 1) rest

/-- The dict returned by `CNIExtractor18F.detect_anchors`: one candidate
list per field. -/
structure Anchors18F where
  nom : List (Nat × String × ℚ)
  prenom : List (Nat × String × ℚ)
  lieu_naissance : List (Nat × String × ℚ)
  profession : List (Nat × String × ℚ)
deriving Repr, DecidableEq

/-- Model of `CNIExtractor18F.detect_anchors`. -/
def detect_anchors (data : List Tok) : Anchors18F :=
  ⟨detectGo anchors_nom 0 data, detectGo anchors_prenom 0 data,
   detectGo anchors_lieu 0 data, detectGo anchors_profession 0 data⟩

/-- Bilingual-marker keywords of the slash test in
`CNIExtractor18F.is_likely_label`. -/
def slash_words : List String :=
  ["NOM", "SURNAME", "PRENOM", "GIVEN", "DATE", "LIEU", "PLACE", "SEXE",
   "SEX", "TAILLE", "HEIGHT"]

/-- The `label_words` vocabulary of `CNIExtractor18F.is_likely_label`. -/
def label_words : List String :=
  ["CARTE", "NATIONALE", "REPUBLIQUE", "DATE", "LIEU",
   "PLACE", "BIRTH", "NAISSANCE", "IDENTITY", "CARD",
   "REPUBLIC", "CAMEROON", "CAMEROUN", "OF", "DE", "DU",
   "PRENOMS", "PRENOM", "GIVEN", "NAMES", "NAME", "NOM", "SURNAME"]

/-- Model of `CNIExtractor18F.is_likely_label`: a token is a label when it
contains `/` together with a bilingual keyword, or is `0.75`-similar to any
known label, or is multi-word with at least half its words in
`label_words`, or is exactly one of `label_words`. -/
def is_likely_label (text : String) : Bool :=
  let tU := pyUpper text
  if strIn "/" text && slash_words.any (fun w => strIn w tU) then true
  else if all_labels.any (fun l => (3 : ℚ) / 4 ≤ similarity_score tU l) then true
  else
    let ws := wordsOf tU
    if 1 < ws.length &&
        decide (ws.length ≤ 2 * ws.countP (fun w => label_words.contains w)) then
      true
    else label_words.contains tU

/-- Model of `CNIExtractor18F.extract_by_proximity` (the shared `proxCore`
instantiated with this class's label classifier; the field-name argument is
only used by the source for logging). -/
def extract_by_proximity (data : List Tok) (anchor_idx : Nat)
    (_field_name : String) : Except String (Option String) :=
  proxCore is_likely_label data anchor_idx

/-- The four fields resolved by the anchor loop of
`extract_remaining_fields`, in the source's iteration order. -/
inductive F18
  | nom
  | prenom
  | lieu_naissance
  | profession
deriving DecidableEq, Repr

/-- Result dict of `CNIExtractor18F.extract_remaining_fields`. -/
structure Rem18F where
  nom : Option String
  prenom : Option String
  lieu_naissance : Option String
  profession : Option String
deriving Repr, DecidableEq

/-- Field lookup in `Rem18F`. -/
def getR (r : Rem18F) : F18 → Option String
  | .nom => r.nom
  | .prenom => r.prenom
  | .lieu_naissance => r.lieu_naissance
  | .profession => r.profession

/-- Field update in `Rem18F`. -/
def setR (r : Rem18F) : F18 → Option String → Rem18F
  | .nom, v => { r with nom := v }
  | .prenom, v => { r with prenom := v }
  | .lieu_naissance, v => { r with lieu_naissance := v }
  | .profession, v => { r with profession := v }

/-- Anchor-candidate lookup in `Anchors18F`. -/
def getA (a : Anchors18F) : F18 → List (Nat × String × ℚ)
  | .nom => a.nom
  | .prenom => a.prenom
  | .lieu_naissance => a.lieu_naissance
  | .profession => a.profession

/-- The string name of each field (passed to `extract_by_proximity`). -/
def fName : F18 → String
  | .nom => "nom"
  | .prenom => "prenom"
  | .lieu_naissance => "lieu_naissance"
  | .profession => "profession"

/-- Mutable state of `extract_remaining_fields`: the result dict plus the
`used_indices` and `used_values` sets (modelled as lists). -/
structure RState18F where
  results : Rem18F
  used_indices : List Nat
  used_values : List String
deriving Repr, DecidableEq

/-- Model of `max(anchors[field], key=lambda x: x[2])`: first maximum under
strict comparison of the similarity component. -/
def bestBySim (a : Nat × String × ℚ) (l : List (Nat × String × ℚ)) :
    Nat × String × ℚ :=
  l.foldl (fun b x => if b.2.2 < x.2.2 then x else b) a

/-- One iteration of the anchor loop of `extract_remaining_fields`: when the
field has anchor candidates, run proximity extraction from the
best-similarity anchor and accept the value only if it is truthy, not
label-like, and not already used; on acceptance also record the first token
index bearing that text. -/
def stepAnchor (data : List Tok) (anchors : Anchors18F) (s : RState18F)
    (f : F18) : Except String RState18F :=
  match getA anchors f with
  | [] => .ok s
  | a :: rest =>
    match extract_by_proximity data (bestBySim a rest).1 (fName f) with
    | .error e => .error e
    | .ok value =>
      match value with
      | none => .ok s
      | some v =>
        if v ≠ "" ∧ is_likely_label v = false ∧ s.used_values.contains v = false then
          .ok { results := setR s.results f (some v),
                used_indices := s.used_indices ++
                  (match data.findIdx? (fun t => t.1 == v) with
                   | some i => [i]
                   | none => []),
                used_values := s.used_values ++ [v] }
        else .ok s

/-- The anchor loop of `extract_remaining_fields`, over the four fields in
source order. -/
def anchorPhase (data : List Tok) (anchors : Anchors18F) :
    Except String RState18F :=
  [F18.nom, F18.prenom, F18.lieu_naissance, F18.profession].foldlM
    (stepAnchor data anchors) ⟨⟨none, none, none, none⟩, [], []⟩

/-- An entry of the `remaining_texts` pool built by the positional-fallback
stage. -/
structure FallItem where
  text : String
  score : ℚ
  y_position : ℚ
  index : Nat
deriving Repr, DecidableEq

/-- Pool construction of the positional fallback: every token whose index is
unused, whose text is not label-like and not already used, tagged with the
vertical coordinate of its center (whose computation can raise on an empty
polygon). -/
def fallbackPool (used_indices : List Nat) (used_values : List String) :
    Nat → List Tok → Except String (List FallItem)
  | _, [] => .ok []
  | i, (t, s, p) :: rest =>
    if used_indices.contains i ∨ is_likely_label t ∨ used_values.contains t then
      fallbackPool used_indices used_values (i + 1) rest
    else
      match calculate_center p with
      | .error e => .error e
      | .ok c =>
        match fallbackPool used_indices used_values (i + 1) rest with
        | .error e => .error e
        | .ok l => .ok ({ text := t, score := s, y_position := c.2, index := i } :: l)

/-- Stable insertion (equal keys keep first-come order) used to model
Python's stable `list.sort(key=lambda x: x['y_position'])`. -/
def insY (a : FallItem) : List FallItem → List FallItem
  | [] => [a]
  | b :: l => if a.y_position < b.y_position then a :: b :: l else b :: insY a l

/-- Stable sort of the fallback pool by ascending vertical position. -/
def sortY (l : List FallItem) : List FallItem :=
  l.foldl (fun acc x => insY x acc) []

/-- Positional assignment of the fallback stage: `nom`, then `prenom` (each
popping the topmost entry), then `lieu_naissance` (peeking), each only when
still falsy.  (The source also adds the chosen texts to `used_values`, which
is never read again.) -/
def fallbackAssign (r0 : Rem18F) (l0 : List FallItem) : Rem18F :=
  let p1 : Rem18F × List FallItem :=
    match truthy r0.nom, l0 with
    | false, x :: xs => ({ r0 with nom := some x.text }, xs)
    | _, _ => (r0, l0)
  let p2 : Rem18F × List FallItem :=
    match truthy p1.1.prenom, p1.2 with
    | false, x :: xs => ({ p1.1 with prenom := some x.text }, xs)
    | _, _ => p1
  match truthy p2.1.lieu_naissance, p2.2 with
  | false, x :: _ => { p2.1 with lieu_naissance := some x.text }
  | _, _ => p2.1

/-- Model of `CNIExtractor18F.extract_remaining_fields`: the anchor loop
followed by the positional fallback. -/
def extract_remaining_fields (data : List Tok) (anchors : Anchors18F) :
    Except String Rem18F :=
  match anchorPhase data anchors with
  | .error e => .error e
  | .ok s =>
    match fallbackPool s.used_indices s.used_values 0 data with
    | .error e => .error e
    | .ok pool => .ok (fallbackAssign s.results (sortY pool))

/-- The dict returned by `CNIExtractor18F.extract`: `Option` fields model
keys that are present in only one of the two return branches
(`message` on gate failure; `confidence` and `anchors_detected` on
success), and `data` is the `extracted_data` mapping in insertion order
(empty on gate failure). -/
structure Outcome18F where
  success : Bool
  quality_score : ℚ
  message : Option String
  confidence : Option ℚ
  anchors_detected : Option (List (String × Bool))
  data : List (String × Option String)
deriving Repr, DecidableEq

/-- Model of `CNIExtractor18F.extract`: quality gate, preprocessing,
fixed-format extraction, removal of consumed indices, anchor detection,
remaining-field extraction, and consolidation with
`confidence = filled_fields / 6.0` over the 7-key `extracted_data` dict. -/
def extract (d : OcrData) : Except String Outcome18F :=
  if (assess_quality d).1 then
    let processed := preprocess d.rec_texts d.rec_scores d.rec_polys
    let fixed := extract_fixed_format_fields processed
    let remaining_data := removeIndices fixed.indices_removed 0 processed
    let anchors := detect_anchors remaining_data
    match extract_remaining_fields remaining_data anchors with
    | .error e => .error e
    | .ok rem =>
      let ed : List (String × Option String) :=
        [("nom", rem.nom), ("prenom", rem.prenom),
         ("date_naissance", fixed.date_naissance),
         ("lieu_naissance", rem.lieu_naissance),
         ("sexe", fixed.sexe), ("taille", fixed.taille),
         ("profession", rem.profession)]
      let filled := ed.countP (fun kv => kv.2.isSome)
      .ok { success := true, quality_score := (assess_quality d).2, message := none,
            confidence := some ((filled : ℚ) / 6),
            anchors_detected := some
              [("nom", !anchors.nom.isEmpty), ("prenom", !anchors.prenom.isEmpty),
               ("lieu_naissance", !anchors.lieu_naissance.isEmpty),
               ("profession", !anchors.profession.isEmpty)],
            data := ed }
  else
    .ok { success := false, quality_score := (assess_quality d).2,
          message := some "Qualité OCR insuffisante",
          confidence := none, anchors_detected := none, data := [] }

end CNI18F

namespace CNI18B

/-- Anchor synonyms for `pere` (`self.anchors['pere']` of
`CNIExtractor18B`). -/
def anchors_pere : List String := ["PERE", "FATHER", "PERE/FATHER"]

/-- Anchor synonyms for `mere`. -/
def anchors_mere : List String := ["MERE", "MOTHER", "MERE/MOTHER"]

/-- Anchor synonyms for `date_delivrance`. -/
def anchors_date_delivrance : List String :=
  ["DATE DE DELIVRANCE", "DATE OF ISSUE", "DATE DE DELIVRANCEI", "DATEOFISSUE"]

/-- Anchor synonyms for `date_expiration`. -/
def anchors_date_expiration : List String :=
  ["DATE D'EXPIRATION", "DATE OF EXPIRY", "DATED'EXPIRATION",
   "DATEOF EXPIRY"]

/-- Anchor synonyms for `adresse`. -/
def anchors_adresse : List String := ["ADRESSE", "ADDRESS", "ADRESSE/ADDRESS"]

/-- Anchor synonyms for `poste_identification`. -/
def anchors_poste : List String :=
  ["POSTE D'IDENTIFICATION", "IDENTIFICATION POST",
   "POSTE DIDENTIFICATION", "POSTE DIDENTIFICATIONA"]

/-- Anchor synonyms for `identifiant_unique`. -/
def anchors_identifiant : List String :=
  ["IDENTIFIANT UNIQUE", "UNIQUE IDENTIFIER", "IDENTIFIANTUNIQUE",
   "UNIQUEIDENTIFIER", "IDENTIFIANTUNIQUEI", "UNIQUEIDENTIFIERI"]

/-- Anchor synonyms for `autorite`. -/
def anchors_autorite : List String := ["AUTORITE", "AUTHORITY", "AUTORITE/AUTHORITY"]

/-- The `self.all_labels` set of `CNIExtractor18B`: every anchor synonym
plus the extra fixed labels (modelled as a list; only `any`-style scans use
it). -/
def all_labels : List String :=
  anchors_pere ++ anchors_mere ++ anchors_date_delivrance ++
  anchors_date_expiration ++ anchors_adresse ++ anchors_poste ++
  anchors_identifiant ++ anchors_autorite ++
  ["S.P.", "S.M.", "S.P./S.M.", "CAMEROUN", "CAMEROON"]

/-- Bilingual-marker keywords of the slash test in
`CNIExtractor18B.is_likely_label`. -/
def slash_words : List String :=
  ["PERE", "FATHER", "MERE", "MOTHER", "DATE", "ADRESSE", "ADDRESS"]

/-- The `label_words` vocabulary of `CNIExtractor18B.is_likely_label`. -/
def label_words : List String :=
  ["PERE", "FATHER", "MERE", "MOTHER", "DATE", "DELIVRANCE",
   "ISSUE", "EXPIRATION", "EXPIRY", "ADRESSE", "ADDRESS",
   "POSTE", "IDENTIFICATION", "POST", "IDENTIFIANT", "UNIQUE",
   "IDENTIFIER", "AUTORITE", "AUTHORITY", "CAMEROUN", "CAMEROON"]

/-- Model of `CNIExtractor18B.is_likely_label`: the slash test, the
`0.75`-similarity test against `all_labels`, and the multi-word keyword
test.  Unlike the 18-front classifier, this one has no final standalone
exact-keyword test. -/
def is_likely_label (text : String) : Bool :=
  let tU := pyUpper text
  if strIn "/" text && slash_words.any (fun w => strIn w tU) then true
  else if all_labels.any (fun l => (3 : ℚ) / 4 ≤ similarity_score tU l) then true
  else
    let ws := wordsOf tU
    1 < ws.length &&
      decide (ws.length ≤ 2 * ws.countP (fun w => label_words.contains w))

/-- Model of the `id_unique_pattern` regex `^\d{15,20}$`. -/
def idUniqueShaped (t : String) : Bool :=
  t.toList.all isDig && 15 ≤ t.length && t.length ≤ 20

/-- Model of the `numero_pattern` regex `^\d{9}$`. -/
def numeroShaped (t : String) : Bool :=
  t.toList.all isDig && t.length = 9

/-- Model of the `poste_pattern` regex `^[A-Z]{2}\d{2}$`. -/
def posteShaped (t : String) : Bool :=
  match t.toList with
  | a :: b :: c :: d :: [] => isUpAZ a && isUpAZ b && isDig c && isDig d
  | _ => false

/-- Loop state of `CNIExtractor18B.extract_fixed_format_fields`: the
directly-assigned fields, the `dates_found` list of `(text, index)` pairs,
and `indices_to_remove`. -/
structure FixedState18B where
  identifiant_unique : Option String
  numero_cni : Option String
  poste_code : Option String
  dates_found : List (String × Nat)
  indices_removed : List Nat
deriving Repr, DecidableEq

/-- Loop of `CNIExtractor18B.extract_fixed_format_fields`: every date-shaped
token is collected (and its index removed) unconditionally; the other three
categories fill only while still falsy; each branch `continue`s. -/
def fixedGo : FixedState18B → Nat → List Tok → FixedState18B
  | s, _, [] => s
  | s, i, (t, _, _) :: rest =>
    if dateShaped t then
      fixedGo { s with dates_found := s.dates_found ++ [(t, i)],
                       indices_removed := s.indices_removed ++ [i] } (i + 1) rest
    else if truthy s.identifiant_unique = false ∧ idUniqueShaped t then
      fixedGo { s with identifiant_unique := some t,
                       indices_removed := s.indices_removed ++ [i] } (i + 1) rest
    else if truthy s.numero_cni = false ∧ numeroShaped t then
      fixedGo { s with numero_cni := some t,
                       indices_removed := s.indices_removed ++ [i] } (i + 1) rest
    else if truthy s.poste_code = false ∧ posteShaped t then
      fixedGo { s with poste_code := some t,
                       indices_removed := s.indices_removed ++ [i] } (i + 1) rest
    else fixedGo s (i + 1) rest

/-- Result dict of `CNIExtractor18B.extract_fixed_format_fields`. -/
structure Fixed18B where
  date_delivrance : Option String
  date_expiration : Option String
  identifiant_unique : Option String
  numero_cni : Option String
  poste_code : Option String
  indices_removed : List Nat
deriving Repr, DecidableEq

/-- Model of `CNIExtractor18B.extract_fixed_format_fields`: run the loop,
then assign the first found date to `date_delivrance` and the second to
`date_expiration` (purely positional). -/
def extract_fixed_format_fields (data : List Tok) : Fixed18B :=
  let s := fixedGo ⟨none, none, none, [], []⟩ 0 data
  { date_delivrance := (s.dates_found.get? 0).map Prod.fst,
    date_expiration := (s.dates_found.get? 1).map Prod.fst,
    identifiant_unique := s.identifiant_unique,
    numero_cni := s.numero_cni,
    poste_code := s.poste_code,
    indices_removed := s.indices_removed }

/-- Model of `CNIExtractor18B.extract_by_proximity` (the shared `proxCore`
with this class's label classifier; the field-name argument is only used for
logging). -/
def extract_by_proximity (data : List Tok) (anchor_idx : Nat)
    (_field_name : String) : Except String (Option String) :=
  proxCore is_likely_label data anchor_idx

/-- The four fields resolved by the anchor loop of
`CNIExtractor18B.extract_remaining_fields`, in source order. -/
inductive BField
  | pere
  | mere
  | adresse
  | autorite
deriving DecidableEq, Repr

/-- Result dict of `CNIExtractor18B.extract_remaining_fields`
(`poste_identification` is seeded from the fixed-format stage's
`poste_code`). -/
structure Rem18B where
  pere : Option String
  mere : Option String
  adresse : Option String
  autorite : Option String
  poste_identification : Option String
deriving Repr, DecidableEq

/-- Field lookup in `Rem18B` for the anchor-resolved fields. -/
def getB (r : Rem18B) : BField → Option String
  | .pere => r.pere
  | .mere => r.mere
  | .adresse => r.adresse
  | .autorite => r.autorite

/-- Field update in `Rem18B` for the anchor-resolved fields. -/
def setB (r : Rem18B) : BField → Option String → Rem18B
  | .pere, v => { r with pere := v }
  | .mere, v => { r with mere := v }
  | .adresse, v => { r with adresse := v }
  | .autorite, v => { r with autorite := v }

/-- The anchor-candidate lists consumed by
`CNIExtractor18B.extract_remaining_fields` (its loop reads
`anchors.get(field, [])` only for these four fields; `detect_anchors` also
fills four further keys that the loop never reads). -/
structure Anchors18B where
  pere : List (Nat × String × ℚ)
  mere : List (Nat × String × ℚ)
  adresse : List (Nat × String × ℚ)
  autorite : List (Nat × String × ℚ)
deriving Repr, DecidableEq

/-- Anchor-candidate lookup in `Anchors18B`. -/
def getAB (a : Anchors18B) : BField → List (Nat × String × ℚ)
  | .pere => a.pere
  | .mere => a.mere
  | .adresse => a.adresse
  | .autorite => a.autorite

/-- The string name of each anchor-resolved field. -/
def fNameB : BField → String
  | .pere => "pere"
  | .mere => "mere"
  | .adresse => "adresse"
  | .autorite => "autorite"

/-- Mutable state of `CNIExtractor18B.extract_remaining_fields`: the result
dict and the `used_values` set.  (The source also declares a `used_indices`
set that it never adds to; it is omitted.) -/
structure RState18B where
  results : Rem18B
  used_values : List String
deriving Repr, DecidableEq

/-- One iteration of the anchor loop of
`CNIExtractor18B.extract_remaining_fields`: same acceptance guard as the
18-front version, but no index bookkeeping. -/
def stepAnchor (data : List Tok) (anchors : Anchors18B) (s : RState18B)
    (f : BField) : Except String RState18B :=
  match getAB anchors f with
  | [] => .ok s
  | a :: rest =>
    match extract_by_proximity data (CNI18F.bestBySim a rest).1 (fNameB f) with
    | .error e => .error e
    | .ok value =>
      match value with
      | none => .ok s
      | some v =>
        if v ≠ "" ∧ is_likely_label v = false ∧ s.used_values.contains v = false then
          .ok { results := setB s.results f (some v),
                used_values := s.used_values ++ [v] }
        else .ok s

/-- The anchor loop of `CNIExtractor18B.extract_remaining_fields` over
`pere`, `mere`, `adresse`, `autorite`, starting from the result dict seeded
with the fixed-format `poste_code`. -/
def anchorPhase (data : List Tok) (anchors : Anchors18B) (fixed : Fixed18B) :
    Except String RState18B :=
  [BField.pere, BField.mere, BField.adresse, BField.autorite].foldlM
    (stepAnchor data anchors) ⟨⟨none, none, none, none, fixed.poste_code⟩, []⟩

/-- Python `all(w[0].isupper() for w in words if w)` over the words of a
text: every non-empty word starts with an uppercase letter. -/
def nameLike (t : String) : Bool :=
  (wordsOf t).all (fun w => w.isEmpty || isUpAZ (w.toList.getD 0 ' '))

/-- The `autorite` fallback scan of
`CNIExtractor18B.extract_remaining_fields`: the first token with score above
`0.9`, at least two words, all words capitalised, not already used and not
label-like. -/
def autoriteScan (used_values : List String) : List Tok → Option String
  | [] => none
  | (t, s, _) :: rest =>
    if (9 : ℚ) / 10 < s ∧ 2 ≤ (wordsOf t).length then
      if nameLike t then
        if used_values.contains t = false ∧ is_likely_label t = false then some t
        else autoriteScan used_values rest
      else autoriteScan used_values rest
    else autoriteScan used_values rest

/-- Model of `CNIExtractor18B.extract_remaining_fields`: the anchor loop,
then the `autorite` pattern fallback when `autorite` is still falsy. -/
def extract_remaining_fields (data : List Tok) (anchors : Anchors18B)
    (fixed : Fixed18B) : Except String Rem18B :=
  match anchorPhase data anchors fixed with
  | .error e => .error e
  | .ok s =>
    .ok (if truthy s.results.autorite = false then
           match autoriteScan s.used_values data with
           | some t => { s.results with autorite := some t }
           | none => s.results
         else s.results)

end CNI18B

namespace CNI25B

/-- Filter applied to each `(text, score, polygon)` triple by
`CNIExtractor25B.preprocess`: drop scores below `0.3`, strip the text and
drop it when empty, drop machine-readable-zone lines (starting with `I<` or
containing `<<<`), and drop the bare country code `CMR`. -/
def preStep (x : String × ℚ × Poly) : Option Tok :=
  if x.2.1 < (3 : ℚ) / 10 then none
  else
    let t := pyStrip x.1
    if t = "" then none
    else if startsL "I<".toList t.toList || strIn "<<<" t then none
    else if t = "CMR" then none
    else some (t, x.2.1, x.2.2)

/-- Model of `CNIExtractor25B.preprocess`. -/
def preprocess (texts : List String) (scores : List ℚ) (polygons : List Poly) :
    List Tok :=
  (texts.zip (scores.zip polygons)).filterMap preStep

end CNI25B

end OcrPoc


deriving instance DecidableEq for Except

namespace OcrPoc

/-- One-point polygon at `(x, y)` (its center is the point itself), used to
build concrete OCR inputs. -/
def pt (x y : ℚ) : Poly := [(x, y)]

/-- Concrete OCR input for the confidence computation: 8 tokens with score
`0.9` (the gate passes), of which the fixed-format stage consumes a date, a
sex marker and a height, no anchor is detected, and the positional fallback
fills `nom`, `prenom` and `lieu_naissance`; `profession` stays absent, so 6
of the 7 fields of the returned map are filled. -/
def c1_input : OcrData :=
  ⟨["01.01.1990", "M", "1,75", "OXA", "UZB", "EQC", "IWD", "AVE"],
   [mkRat 9 10, mkRat 9 10, mkRat 9 10, mkRat 9 10,
    mkRat 9 10, mkRat 9 10, mkRat 9 10, mkRat 9 10],
   [pt 5 5, pt 5 15, pt 5 25, pt 5 35, pt 5 45, pt 5 55, pt 5 65, pt 5 75]⟩

/-- The outcome `CNIExtractor18F.extract` returns on `c1_input`. -/
def c1_outcome : CNI18F.Outcome18F :=
  { success := true, quality_score := mkRat 9 10, message := none,
    confidence := some 1,
    anchors_detected := some [("nom", false), ("prenom", false),
      ("lieu_naissance", false), ("profession", false)],
    data := [("nom", some "OXA"), ("prenom", some "UZB"),
      ("date_naissance", some "01.01.1990"), ("lieu_naissance", some "EQC"),
      ("sexe", some "M"), ("taille", some "1,75"), ("profession", none)] }

end OcrPoc

/-- C1: on the gate-passing input `c1_input` the 18-front extractor fills 6
of the 7 fields of the returned map but reports `confidence = 1`
(`filled_fields / 6.0` with a hard-coded denominator of 6), whereas the
claimed value `filled / total = 6 / 7` differs: the confidence is not the
fraction of non-absent fields of the returned field map. -/
theorem c1_confidence_not_field_fraction :
    OcrPoc.CNI18F.extract OcrPoc.c1_input = Except.ok OcrPoc.c1_outcome ∧
    OcrPoc.c1_outcome.data.length = 7 ∧
    OcrPoc.c1_outcome.data.countP (fun kv => kv.2.isSome) = 6 ∧
    OcrPoc.c1_outcome.confidence = some 1 ∧
    ((OcrPoc.c1_outcome.data.countP (fun kv => kv.2.isSome) : ℚ) /
        (OcrPoc.c1_outcome.data.length : ℚ) ≠ 1) := by
  refine ⟨by with_unfolding_all decide, by decide, by decide, by decide, ?_⟩
  norm_num [OcrPoc.c1_outcome]

namespace OcrPoc

/-- Concrete OCR input with only 3 valid-confidence tokens: the quality gate
fails. -/
def c2_input : OcrData :=
  ⟨["AAA", "BBB", "CCC"], [mkRat 4 5, mkRat 4 5, mkRat 4 5],
   [pt 5 5, pt 5 15, pt 5 25]⟩

end OcrPoc

/-- C2 counterexample: on the gate-failing input `c2_input` the returned
outcome has an empty field map — looking up the layout field `nom` finds no
key at all (the claim demands an explicit absent value under every field
name) — and carries no confidence value (the claim demands `confidence = 0`). -/
theorem c2_gate_fail_fields_missing :
    (OcrPoc.CNI18F.extract OcrPoc.c2_input).map
        (fun o => (o.success, o.data.lookup "nom", o.data.length, o.confidence)) =
      Except.ok (false, none, 0, none) := by
  with_unfolding_all decide

/-- C2 (amended): whenever the quality gate fails, `extract` returns a
well-formed failure outcome: `success = false`, the computed quality score,
the fixed French message, an empty field map with no field keys, and no
confidence entry. -/
theorem c2_gate_fail_outcome (d : OcrPoc.OcrData)
    (h : (OcrPoc.CNI18F.assess_quality d).1 = false) :
    OcrPoc.CNI18F.extract d = Except.ok
      { success := false,
        quality_score := (OcrPoc.CNI18F.assess_quality d).2,
        message := some "Qualité OCR insuffisante",
        confidence := none, anchors_detected := none, data := [] } := by
  unfold OcrPoc.CNI18F.extract
  rw [h]
  simp

/-- C2 witness: the amended shape theorem applied to the concrete
gate-failing input `c2_input`. -/
theorem c2_gate_fail_outcome_witness :
    OcrPoc.CNI18F.extract OcrPoc.c2_input = Except.ok
      { success := false,
        quality_score := (OcrPoc.CNI18F.assess_quality OcrPoc.c2_input).2,
        message := some "Qualité OCR insuffisante",
        confidence := none, anchors_detected := none, data := [] } :=
  c2_gate_fail_outcome OcrPoc.c2_input (by with_unfolding_all decide)

namespace OcrPoc

/-- The date-shaped texts of a token list, in traversal order: exactly what
the 18-back fixed-format loop accumulates in `dates_found`. -/
def datesOf (data : List Tok) : List String :=
  (data.map (fun t => t.1)).filter dateShaped

/-- The `dates_found` accumulator of the 18-back fixed-format loop collects
exactly the date-shaped texts in traversal order. -/
lemma fixedGo18B_dates (l : List Tok) : ∀ (s : CNI18B.FixedState18B) (i : Nat),
    (CNI18B.fixedGo s i l).dates_found.map Prod.fst =
      s.dates_found.map Prod.fst ++ (l.map (fun t => t.1)).filter dateShaped := by
  induction l with
  | nil => intro s i; simp [CNI18B.fixedGo]
  | cons t rest ih =>
    intro s i
    obtain ⟨tx, sc, p⟩ := t
    simp only [CNI18B.fixedGo, List.map_cons, List.filter_cons]
    split_ifs with h1 h2 h3 h4 <;> simp [ih, h1]

end OcrPoc

/-- C3 (amended): on the 18-back layout (the only layout in the repository
with two expected date fields) date-shaped tokens are assigned purely
positionally — the first-found date becomes `date_delivrance` and the
second-found becomes `date_expiration`; no year-based disambiguation exists. -/
theorem c3_dates_assigned_positionally (data : List OcrPoc.Tok) :
    (OcrPoc.CNI18B.extract_fixed_format_fields data).date_delivrance =
        (OcrPoc.datesOf data).get? 0 ∧
    (OcrPoc.CNI18B.extract_fixed_format_fields data).date_expiration =
        (OcrPoc.datesOf data).get? 1 := by
  have h := OcrPoc.fixedGo18B_dates data ⟨none, none, none, [], []⟩ 0
  simp only [List.map_nil, List.nil_append] at h
  unfold OcrPoc.CNI18B.extract_fixed_format_fields
  constructor <;> simp [OcrPoc.datesOf, ← h, List.get?_map]

namespace OcrPoc

/-- Two date-shaped tokens in the order expiry-year-first: `12.03.2030`
(parsed year above 2020) then `12.03.1990` (parsed year below 2010). -/
def c3_data : List Tok :=
  [("12.03.2030", mkRat 9 10, pt 5 5), ("12.03.1990", mkRat 9 10, pt 5 15)]

end OcrPoc

/-- C3 counterexample: with two date-shaped tokens `12.03.2030` and
`12.03.1990` (in that order), the 18-back extractor assigns the year-2030
token (year above 2020, which the claim sends to the expiry field) to the
first-role issue-date field, and the year-1990 token (year below 2010,
which the claim sends to the birth/first-role field) to the expiry field:
assignment is positional, not year-based. -/
theorem c3_year_rule_refuted :
    (OcrPoc.CNI18B.extract_fixed_format_fields OcrPoc.c3_data).date_delivrance =
        some "12.03.2030" ∧
    (OcrPoc.CNI18B.extract_fixed_format_fields OcrPoc.c3_data).date_expiration =
        some "12.03.1990" := by
  with_unfolding_all decide

namespace OcrPoc

/-- Number of truthy fields among the three fixed-format categories of the
18-front extractor. -/
def fixedFilled18F (r : CNI18F.Fixed18F) : Nat :=
  (if truthy r.date_naissance then 1 else 0) +
  (if truthy r.sexe then 1 else 0) +
  (if truthy r.taille then 1 else 0)

/-- A date-shaped text is non-empty. -/
lemma dateShaped_ne_empty {t : String} (h : dateShaped t = true) : t ≠ "" := by
  intro he
  rw [he] at h
  exact absurd h (by decide)

/-- A Lean string built from a non-empty character list is non-empty. -/
lemma mk_ne_empty (a : Char) (l : List Char) : String.mk (a :: l) ≠ "" := by
  intro h
  rw [String.ext_iff] at h
  exact List.cons_ne_nil a l h

/-- The normalised height of a height-shaped text is non-empty. -/
lemma tailleShaped_ne_empty {t : String} (h : CNI18F.tailleShaped t = true) :
    CNI18F.normalizeTaille t ≠ "" := by
  unfold CNI18F.tailleShaped at h
  cases hl : t.toList with
  | nil => rw [hl] at h; exact absurd h (by decide)
  | cons c rest =>
    simp only [CNI18F.normalizeTaille, hl, List.map_cons]
    set d : Char := if (c == '.') = true then ',' else c with hd
    split_ifs
    · simpa [List.take, List.drop] using mk_ne_empty d _
    · exact mk_ne_empty d _

/-- Each step of the 18-front fixed-format loop appends an index to
`indices_to_remove` exactly when it assigns a field: the removal count
always equals the number of filled fields. -/
lemma fixedGo18F_count (l : List Tok) :
    ∀ (s : CNI18F.Fixed18F) (i : Nat),
      s.indices_removed.length = fixedFilled18F s →
      (CNI18F.fixedGo s i l).indices_removed.length =
        fixedFilled18F (CNI18F.fixedGo s i l) := by
  induction l with
  | nil => intro s i h; simpa [CNI18F.fixedGo] using h
  | cons t rest ih =>
    intro s i h
    obtain ⟨tx, sc, p⟩ := t
    simp only [CNI18F.fixedGo]
    split_ifs with h1 h2 h3
    · apply ih
      have htx : truthy (some tx) = true := by
        simp [truthy, dateShaped_ne_empty h1.2]
      simp only [fixedFilled18F, h1.1] at h
      simp [fixedFilled18F, htx, h, h1.1]
      omega
    · apply ih
      have htx : truthy (some tx) = true := by
        rcases h2.2 with rfl | rfl <;> decide
      simp only [fixedFilled18F, h2.1] at h
      simp [fixedFilled18F, htx, h, h2.1]
      omega
    · apply ih
      have htx : truthy (some (CNI18F.normalizeTaille tx)) = true := by
        simp [truthy, tailleShaped_ne_empty h3.2]
      simp only [fixedFilled18F, h3.1] at h
      simp [fixedFilled18F, htx, h, h3.1]
    · exact ih s (i + 1) h

end OcrPoc

/-- C5 (amended): in the 18-front fixed-format stage a token index is added
to the removed set exactly when its token is assigned to a field: the
number of removed indices always equals the number of filled fixed-format
fields (so a pattern-matching token whose category is already filled is not
removed). -/
theorem c5_removed_exactly_when_assigned (data : List OcrPoc.Tok) :
    (OcrPoc.CNI18F.extract_fixed_format_fields data).indices_removed.length =
      OcrPoc.fixedFilled18F (OcrPoc.CNI18F.extract_fixed_format_fields data) := by
  unfold OcrPoc.CNI18F.extract_fixed_format_fields
  exact OcrPoc.fixedGo18F_count data ⟨none, none, none, []⟩ 0 rfl

namespace OcrPoc

/-- Two date-shaped tokens: only the first is consumed by the 18-front
fixed-format stage. -/
def c5_data : List Tok :=
  [("01.01.1990", mkRat 9 10, pt 5 5), ("02.02.1991", mkRat 9 10, pt 5 15)]

end OcrPoc

/-- C5 counterexample: the second date-shaped token `02.02.1991` matches the
date pattern but is not added to the removed indices (`[0]` only) and
remains in the pool that the anchor and proximity stages see. -/
theorem c5_second_date_not_removed :
    OcrPoc.dateShaped "02.02.1991" = true ∧
    (OcrPoc.CNI18F.extract_fixed_format_fields OcrPoc.c5_data).indices_removed = [0] ∧
    OcrPoc.removeIndices
        (OcrPoc.CNI18F.extract_fixed_format_fields OcrPoc.c5_data).indices_removed 0
        OcrPoc.c5_data =
      [("02.02.1991", mkRat 9 10, OcrPoc.pt 5 15)] := by
  with_unfolding_all decide

namespace OcrPoc

/-- A non-empty polygon always yields a center. -/
lemma calculate_center_ok {p : Poly} (h : p ≠ []) :
    ∃ c, calculate_center p = Except.ok c := by
  simp [calculate_center, h]

/-- In-range `getD` returns a member of the list. -/
lemma getD_mem {l : List Tok} {i : Nat} (h : i < l.length) (d : Tok) :
    l.getD i d ∈ l := by
  induction l generalizing i with
  | nil => simp at h
  | cons a t ih =>
    cases i with
    | zero => simp
    | succ n =>
      simp only [List.getD_cons_succ]
      exact List.mem_cons_of_mem _ (ih (by simpa using h))

/-- The proximity candidate loop never fails when every token polygon is
non-empty. -/
lemma proxGo_ok (isLabel : String → Bool) (ai : Nat) (c0 : ℚ × ℚ)
    (data : List Tok) (hp : ∀ t ∈ data, t.2.2 ≠ []) :
    ∀ i, ∃ cs, proxGo isLabel ai c0 i data = Except.ok cs := by
  induction data with
  | nil => intro i; exact ⟨[], rfl⟩
  | cons t rest ih =>
    intro i
    obtain ⟨tx, sc, p⟩ := t
    have hrest : ∀ t ∈ rest, t.2.2 ≠ [] := fun t ht => hp t (List.mem_cons_of_mem _ ht)
    have hhd : p ≠ [] := hp (tx, sc, p) (List.mem_cons_self _ _)
    simp only [proxGo]
    split_ifs with h1 h2
    · exact ih hrest (i + 1)
    · exact ih hrest (i + 1)
    · obtain ⟨c, hc⟩ := calculate_center_ok hhd
      simp only [hc]
      obtain ⟨cs, hcs⟩ := ih hrest (i + 1)
      simp only [hcs]
      by_cases hdir : c0.1 < c.1 ∨ c0.2 < c.2
      · rw [if_pos hdir]; exact ⟨_, rfl⟩
      · rw [if_neg hdir]; exact ⟨_, rfl⟩

/-- Proximity extraction never fails when every token polygon is
non-empty. -/
lemma proxCore_ok (isLabel : String → Bool) (data : List Tok) (ai : Nat)
    (hp : ∀ t ∈ data, t.2.2 ≠ []) :
    ∃ r, proxCore isLabel data ai = Except.ok r := by
  unfold proxCore
  split_ifs with h
  · exact ⟨none, rfl⟩
  · have hlt : ai < data.length := by omega
    obtain ⟨c, hc⟩ := calculate_center_ok (hp _ (getD_mem hlt ("", 0, [])))
    simp only [hc]
    obtain ⟨cs, hcs⟩ := proxGo_ok isLabel ai c data hp 0
    simp only [hcs]
    cases cs with
    | nil => exact ⟨none, rfl⟩
    | cons a l => exact ⟨_, rfl⟩

/-- One 18-front anchor-loop step never fails when every token polygon is
non-empty. -/
lemma stepAnchor18F_ok (data : List Tok) (anchors : CNI18F.Anchors18F)
    (hp : ∀ t ∈ data, t.2.2 ≠ []) (s : CNI18F.RState18F) (f : CNI18F.F18) :
    ∃ s', CNI18F.stepAnchor data anchors s f = Except.ok s' := by
  unfold CNI18F.stepAnchor
  cases CNI18F.getA anchors f with
  | nil => exact ⟨s, rfl⟩
  | cons a rest =>
    obtain ⟨r, hr⟩ :=
      proxCore_ok CNI18F.is_likely_label data (CNI18F.bestBySim a rest).1 hp
    cases r with
    | none =>
      simp only [CNI18F.extract_by_proximity, hr]
      exact ⟨s, rfl⟩
    | some v =>
      simp only [CNI18F.extract_by_proximity, hr]
      split_ifs <;> exact ⟨_, rfl⟩

/-- An `Except`-valued fold whose every step succeeds succeeds. -/
lemma foldlM_ok {σ α : Type} (f : σ → α → Except String σ)
    (hf : ∀ s a, ∃ s', f s a = Except.ok s') :
    ∀ (l : List α) (s : σ), ∃ s', List.foldlM f s l = Except.ok s' := by
  intro l
  induction l with
  | nil => intro s; exact ⟨s, rfl⟩
  | cons a t ih =>
    intro s
    obtain ⟨s1, h1⟩ := hf s a
    obtain ⟨s2, h2⟩ := ih s1
    exact ⟨s2, by rw [List.foldlM_cons, h1]; exact h2⟩

/-- The positional-fallback pool construction never fails when every token
polygon is non-empty. -/
lemma fallbackPool_ok (ui : List Nat) (uv : List String) (data : List Tok)
    (hp : ∀ t ∈ data, t.2.2 ≠ []) :
    ∀ i, ∃ l, CNI18F.fallbackPool ui uv i data = Except.ok l := by
  induction data with
  | nil => intro i; exact ⟨[], rfl⟩
  | cons t rest ih =>
    intro i
    obtain ⟨tx, sc, p⟩ := t
    have hrest : ∀ t ∈ rest, t.2.2 ≠ [] := fun t ht => hp t (List.mem_cons_of_mem _ ht)
    have hhd : p ≠ [] := hp (tx, sc, p) (List.mem_cons_self _ _)
    simp only [CNI18F.fallbackPool]
    split_ifs with h1
    · exact ih hrest (i + 1)
    · obtain ⟨c, hc⟩ := calculate_center_ok hhd
      simp only [hc]
      obtain ⟨l, hl⟩ := ih hrest (i + 1)
      simp only [hl]
      exact ⟨_, rfl⟩

/-- The 18-front remaining-field extraction never fails when every token
polygon is non-empty. -/
lemma extract_remaining18F_ok (data : List Tok) (anchors : CNI18F.Anchors18F)
    (hp : ∀ t ∈ data, t.2.2 ≠ []) :
    ∃ r, CNI18F.extract_remaining_fields data anchors = Except.ok r := by
  unfold CNI18F.extract_remaining_fields CNI18F.anchorPhase
  obtain ⟨s, hs⟩ := foldlM_ok (CNI18F.stepAnchor data anchors)
    (fun st f => stepAnchor18F_ok data anchors hp st f)
    [CNI18F.F18.nom, CNI18F.F18.prenom, CNI18F.F18.lieu_naissance,
     CNI18F.F18.profession] ⟨⟨none, none, none, none⟩, [], []⟩
  simp only [hs]
  obtain ⟨pool, hpool⟩ := fallbackPool_ok s.used_indices s.used_values data hp 0
  simp only [hpool]
  exact ⟨_, rfl⟩

/-- Every polygon of a preprocessed token comes from the input polygon
list. -/
lemma preprocess_poly_mem {texts : List String} {scores : List ℚ}
    {polys : List Poly} {t : Tok}
    (ht : t ∈ CNI18F.preprocess texts scores polys) : t.2.2 ∈ polys := by
  obtain ⟨y, hy, hstep⟩ := List.mem_filterMap.mp ht
  obtain ⟨ty, sy, py⟩ := y
  have hpy : py ∈ polys := (List.of_mem_zip (List.of_mem_zip hy).2).2
  simp only [CNI18F.preStep] at hstep
  split_ifs at hstep <;>
    first
      | exact Option.noConfusion hstep
      | (obtain rfl : (pyStrip ty, sy, py) = t := by injection hstep
         exact hpy)

/-- `removeIndices` only drops tokens. -/
lemma removeIndices_mem {rm : List Nat} {l : List Tok} {t : Tok} :
    ∀ {i : Nat}, t ∈ removeIndices rm i l → t ∈ l := by
  induction l with
  | nil => intro i h; exact absurd h (by simp [removeIndices])
  | cons a rest ih =>
    intro i h
    simp only [removeIndices] at h
    split_ifs at h with h1
    · exact List.mem_cons_of_mem _ (ih h)
    · rcases List.mem_cons.mp h with rfl | h2
      · exact List.mem_cons_self _ _
      · exact List.mem_cons_of_mem _ (ih h2)

/-- An OCR input whose third token has an empty polygon: the gate passes,
no anchor is detected, and the positional-fallback stage computes the
token's center and divides by zero. -/
def c4_input : OcrData :=
  ⟨["OXA", "UZB", "EQC", "IWD", "AVE", "XQZ", "WVK", "JPB"],
   [mkRat 9 10, mkRat 9 10, mkRat 9 10, mkRat 9 10,
    mkRat 9 10, mkRat 9 10, mkRat 9 10, mkRat 9 10],
   [pt 5 5, pt 5 15, [], pt 5 35, pt 5 45, pt 5 55, pt 5 65, pt 5 75]⟩

end OcrPoc

/-- C4 counterexample: on `c4_input` — a gate-passing input whose token
`EQC` has an empty polygon — `extract` aborts with the modelled
`ZeroDivisionError` instead of skipping the malformed token. -/
theorem c4_empty_polygon_aborts :
    OcrPoc.CNI18F.extract OcrPoc.c4_input = Except.error "ZeroDivisionError" := by
  with_unfolding_all decide

/-- C4 (amended): for every input whose token polygons are all non-empty,
`extract` completes and returns a well-formed outcome; a surviving token
with an empty polygon instead aborts the whole run with a division-by-zero
error (see the counterexample) rather than being skipped. -/
theorem c4_no_abort_on_nonempty_polygons (d : OcrPoc.OcrData)
    (h : ∀ p ∈ d.rec_polys, p ≠ []) :
    ∃ o, OcrPoc.CNI18F.extract d = Except.ok o := by
  unfold OcrPoc.CNI18F.extract
  split_ifs with hg
  · have hp : ∀ t ∈ OcrPoc.CNI18F.preprocess d.rec_texts d.rec_scores d.rec_polys,
        t.2.2 ≠ [] := fun t ht => h _ (OcrPoc.preprocess_poly_mem ht)
    have hp2 : ∀ t ∈ OcrPoc.removeIndices
        (OcrPoc.CNI18F.extract_fixed_format_fields
          (OcrPoc.CNI18F.preprocess d.rec_texts d.rec_scores d.rec_polys)).indices_removed
        0 (OcrPoc.CNI18F.preprocess d.rec_texts d.rec_scores d.rec_polys),
        t.2.2 ≠ [] := fun t ht => hp t (OcrPoc.removeIndices_mem ht)
    obtain ⟨r, hr⟩ := OcrPoc.extract_remaining18F_ok
      (OcrPoc.removeIndices
        (OcrPoc.CNI18F.extract_fixed_format_fields
          (OcrPoc.CNI18F.preprocess d.rec_texts d.rec_scores d.rec_polys)).indices_removed
        0 (OcrPoc.CNI18F.preprocess d.rec_texts d.rec_scores d.rec_polys))
      (OcrPoc.CNI18F.detect_anchors
        (OcrPoc.removeIndices
          (OcrPoc.CNI18F.extract_fixed_format_fields
            (OcrPoc.CNI18F.preprocess d.rec_texts d.rec_scores d.rec_polys)).indices_removed
          0 (OcrPoc.CNI18F.preprocess d.rec_texts d.rec_scores d.rec_polys)))
      hp2
    simp only [hr]
    exact ⟨_, rfl⟩
  · exact ⟨_, rfl⟩

/-- C4 witness: the no-abort theorem applied to the empty OCR input (all of
whose polygons are vacuously non-empty). -/
theorem c4_no_abort_witness :
    ∃ o, OcrPoc.CNI18F.extract ⟨[], [], []⟩ = Except.ok o :=
  c4_no_abort_on_nonempty_polygons ⟨[], [], []⟩ (by simp)

/-- C10: for every token list and every anchor index at least the list
length, proximity extraction (18-front and 18-back alike) returns `None`
without failing and without examining any token. -/
theorem c10_out_of_range_returns_none (data : List OcrPoc.Tok)
    (anchor_idx : Nat) (fn : String) (h : data.length ≤ anchor_idx) :
    OcrPoc.CNI18F.extract_by_proximity data anchor_idx fn = Except.ok none ∧
    OcrPoc.CNI18B.extract_by_proximity data anchor_idx fn = Except.ok none := by
  constructor <;>
    simp [OcrPoc.CNI18F.extract_by_proximity, OcrPoc.CNI18B.extract_by_proximity,
      OcrPoc.proxCore, h]

/-- C10 witness: anchor index 5 on a one-token list. -/
theorem c10_out_of_range_witness :
    OcrPoc.CNI18F.extract_by_proximity [("OXA", mkRat 9 10, OcrPoc.pt 5 5)] 5 "nom" =
        Except.ok none ∧
    OcrPoc.CNI18B.extract_by_proximity [("OXA", mkRat 9 10, OcrPoc.pt 5 5)] 5 "nom" =
        Except.ok none :=
  c10_out_of_range_returns_none [("OXA", mkRat 9 10, OcrPoc.pt 5 5)] 5 "nom" (by decide)

/-- C7: for parallel OCR input lists, appending one extra token with
confidence score `0` leaves the quality gate's returned average unchanged
and never turns a passing gate into a failing one (in fact the whole gate
result is unchanged). -/
theorem c7_gate_monotone_zero_token (texts : List String) (scores : List ℚ)
    (polys : List OcrPoc.Poly) (t : String) (p : OcrPoc.Poly)
    (h : texts.length = scores.length) :
    (OcrPoc.CNI18F.assess_quality ⟨texts ++ [t], scores ++ [0], polys ++ [p]⟩).2 =
      (OcrPoc.CNI18F.assess_quality ⟨texts, scores, polys⟩).2 ∧
    ((OcrPoc.CNI18F.assess_quality ⟨texts, scores, polys⟩).1 = true →
      (OcrPoc.CNI18F.assess_quality ⟨texts ++ [t], scores ++ [0], polys ++ [p]⟩).1 = true) := by
  have hf1 : (scores ++ [(0 : ℚ)]).filter (fun s => decide (0 < s)) =
      scores.filter (fun s => decide (0 < s)) := by
    rw [List.filter_append]
    norm_num
  have hf2 : (scores ++ [(0 : ℚ)]).filter (fun s => decide ((7 : ℚ) / 10 < s)) =
      scores.filter (fun s => decide ((7 : ℚ) / 10 < s)) := by
    rw [List.filter_append]
    norm_num
  unfold OcrPoc.CNI18F.assess_quality
  by_cases hs : scores = []
  · subst hs
    have ht : texts = [] := List.eq_nil_of_length_eq_zero (by simpa using h)
    subst ht
    norm_num
  · have ht : texts ≠ [] := by
      intro h0
      rw [h0] at h
      exact hs (List.eq_nil_of_length_eq_zero h.symm)
    simp only [hf1, hf2, hs, ht]
    simp

namespace OcrPoc

/-- Dropping a prefix twice is the same as dropping it once. -/
lemma dropWhile_idem {α : Type} (p : α → Bool) (l : List α) :
    (l.dropWhile p).dropWhile p = l.dropWhile p := by
  induction l with
  | nil => rfl
  | cons a t ih =>
    by_cases hp : p a
    · simp [List.dropWhile_cons, hp, ih]
    · simp [List.dropWhile_cons, hp]

/-- The head surviving `dropWhile` fails the predicate. -/
lemma dropWhile_head_false {α : Type} (p : α → Bool) (l : List α) :
    ∀ c ∈ (l.dropWhile p).head?, p c = false := by
  induction l with
  | nil => simp
  | cons a t ih =>
    by_cases hp : p a
    · simpa [List.dropWhile_cons, hp] using ih
    · intro c hc
      simp [List.dropWhile_cons, hp] at hc
      subst hc
      simpa using hp

/-- A list whose head fails the predicate is unchanged by `dropWhile`. -/
lemma dropWhile_eq_self_of_head {α : Type} (p : α → Bool) (l : List α)
    (hl : ∀ c ∈ l.head?, p c = false) : l.dropWhile p = l := by
  cases l with
  | nil => rfl
  | cons a t =>
    have := hl a (by simp)
    simp [List.dropWhile_cons, this]

/-- When `dropWhile` leaves a non-empty list, the last element is
untouched. -/
lemma dropWhile_getLast? {α : Type} (p : α → Bool) (l : List α)
    (h : l.dropWhile p ≠ []) : (l.dropWhile p).getLast? = l.getLast? := by
  induction l with
  | nil => simp at h
  | cons a t ih =>
    by_cases hp : p a
    · rw [List.dropWhile_cons_of_pos hp] at h ⊢
      rw [ih h]
      have ht : t ≠ [] := by
        intro h0
        rw [h0] at h
        exact h (by simp)
      cases t with
      | nil => exact absurd rfl ht
      | cons b u => simp [List.getLast?_cons_cons]
    · rw [List.dropWhile_cons_of_neg hp]

/-- Stripping whitespace from both ends is idempotent. -/
lemma stripChars_idem (l : List Char) : stripChars (stripChars l) = stripChars l := by
  unfold stripChars
  by_cases hune : (l.dropWhile isSp).reverse.dropWhile isSp = []
  · rw [hune]
    simp
  · obtain ⟨c, hc⟩ : ∃ c, (l.dropWhile isSp).head? = some c := by
      cases hs : l.dropWhile isSp with
      | nil =>
        rw [hs] at hune
        simp at hune
      | cons a t => exact ⟨a, rfl⟩
    have hcp : isSp c = false := dropWhile_head_false isSp l c hc
    have hru : ((l.dropWhile isSp).reverse.dropWhile isSp).reverse.head? = some c := by
      rw [List.head?_reverse, dropWhile_getLast? isSp _ hune, List.getLast?_reverse]
      exact hc
    have hdru := dropWhile_eq_self_of_head isSp
      ((l.dropWhile isSp).reverse.dropWhile isSp).reverse
      (by
        intro d hd
        rw [hru] at hd
        simp only [Option.mem_def, Option.some.injEq] at hd
        subst hd
        exact hcp)
    rw [hdru, List.reverse_reverse, dropWhile_idem]

/-- Python `strip` is idempotent. -/
lemma pyStrip_idem (s : String) : pyStrip (pyStrip s) = pyStrip s := by
  unfold pyStrip
  congr 1
  exact stripChars_idem _

/-- A `filterMap` whose function fixes every member of the list is the
identity. -/
lemma filterMap_fix {α : Type} (f : α → Option α) (l : List α)
    (h : ∀ x ∈ l, f x = some x) : l.filterMap f = l := by
  induction l with
  | nil => rfl
  | cons a t ih =>
    simp [List.filterMap_cons, h a (List.mem_cons_self a t),
      ih fun x hx => h x (List.mem_cons_of_mem a hx)]

/-- Re-zipping the three projections of a token list gives the list back. -/
lemma zip_map_self (l : List Tok) :
    (l.map (fun x => x.1)).zip
      ((l.map (fun x => x.2.1)).zip (l.map (fun x => x.2.2))) = l := by
  induction l with
  | nil => rfl
  | cons a t ih => simp [ih]

/-- A token kept by the 18-front preprocessing filter is kept unchanged when
filtered again. -/
lemma preStep_fix {x t : Tok} (h : CNI18F.preStep x = some t) :
    CNI18F.preStep t = some t := by
  obtain ⟨tx, sc, p⟩ := x
  simp only [CNI18F.preStep] at h
  split_ifs at h with h1 h2 h3 <;>
    try exact Option.noConfusion h
  obtain rfl : (pyStrip tx, sc, p) = t := by injection h
  simp only [CNI18F.preStep, pyStrip_idem]
  rw [if_neg h1, if_neg h2, if_neg h3]

/-- A token kept by the 25-back preprocessing filter is kept unchanged when
filtered again. -/
lemma preStep25_fix {x t : Tok} (h : CNI25B.preStep x = some t) :
    CNI25B.preStep t = some t := by
  obtain ⟨tx, sc, p⟩ := x
  simp only [CNI25B.preStep] at h
  split_ifs at h with h1 h2 h3 h4 <;>
    try exact Option.noConfusion h
  obtain rfl : (pyStrip tx, sc, p) = t := by injection h
  simp only [CNI25B.preStep, pyStrip_idem]
  rw [if_neg h1, if_neg h2, if_neg h3, if_neg h4]

/-- Running the 18-front preprocessing on the projections of a list of
fixpoints of its filter returns the list unchanged. -/
lemma preprocess18F_again (out : List Tok)
    (h : ∀ x ∈ out, CNI18F.preStep x = some x) :
    CNI18F.preprocess (out.map (fun x => x.1)) (out.map (fun x => x.2.1))
      (out.map (fun x => x.2.2)) = out := by
  unfold CNI18F.preprocess
  rw [zip_map_self]
  exact filterMap_fix _ _ h

/-- Running the 25-back preprocessing on the projections of a list of
fixpoints of its filter returns the list unchanged. -/
lemma preprocess25B_again (out : List Tok)
    (h : ∀ x ∈ out, CNI25B.preStep x = some x) :
    CNI25B.preprocess (out.map (fun x => x.1)) (out.map (fun x => x.2.1))
      (out.map (fun x => x.2.2)) = out := by
  unfold CNI25B.preprocess
  rw [zip_map_self]
  exact filterMap_fix _ _ h

end OcrPoc

/-- C8: preprocessing is idempotent for both the 18-front and the 25-back
extractor: feeding the texts, scores and polygons of its own output back to
`preprocess` reproduces that output exactly. -/
theorem c8_preprocess_idempotent (texts : List String) (scores : List ℚ)
    (polys : List OcrPoc.Poly) :
    OcrPoc.CNI18F.preprocess
        ((OcrPoc.CNI18F.preprocess texts scores polys).map (fun x => x.1))
        ((OcrPoc.CNI18F.preprocess texts scores polys).map (fun x => x.2.1))
        ((OcrPoc.CNI18F.preprocess texts scores polys).map (fun x => x.2.2)) =
      OcrPoc.CNI18F.preprocess texts scores polys ∧
    OcrPoc.CNI25B.preprocess
        ((OcrPoc.CNI25B.preprocess texts scores polys).map (fun x => x.1))
        ((OcrPoc.CNI25B.preprocess texts scores polys).map (fun x => x.2.1))
        ((OcrPoc.CNI25B.preprocess texts scores polys).map (fun x => x.2.2)) =
      OcrPoc.CNI25B.preprocess texts scores polys := by
  constructor
  · apply OcrPoc.preprocess18F_again
    intro x hx
    obtain ⟨y, _, hy⟩ := List.mem_filterMap.mp hx
    exact OcrPoc.preStep_fix hy
  · apply OcrPoc.preprocess25B_again
    intro x hx
    obtain ⟨y, _, hy⟩ := List.mem_filterMap.mp hx
    exact OcrPoc.preStep25_fix hy

namespace OcrPoc

/-- The best-scoring candidate is one of the candidates. -/
lemma bestCand_mem (c : Cand) (cs : List Cand) :
    bestCand c cs = c ∨ bestCand c cs ∈ cs := by
  induction cs generalizing c with
  | nil => exact Or.inl rfl
  | cons x xs ih =>
    have hstep : bestCand c (x :: xs) =
        bestCand (if scoreGt x.conf x.sq_dist c.conf c.sq_dist then x else c) xs := rfl
    rw [hstep]
    rcases ih (if scoreGt x.conf x.sq_dist c.conf c.sq_dist then x else c) with h | h
    · rw [h]
      split_ifs with hgt
      · exact Or.inr (List.mem_cons_self _ _)
      · exact Or.inl rfl
    · exact Or.inr (List.mem_cons_of_mem _ h)

/-- Every candidate collected by the proximity loop is the text of a token
of the pool that the label classifier rejects as a label. -/
lemma proxGo_sound (isLabel : String → Bool) (ai : Nat) (c0 : ℚ × ℚ)
    (data : List Tok) :
    ∀ i cs, proxGo isLabel ai c0 i data = Except.ok cs →
      ∀ c ∈ cs, (∃ t ∈ data, t.1 = c.text) ∧ isLabel c.text = false := by
  induction data with
  | nil =>
    intro i cs h c hc
    injection h with h'
    rw [← h'] at hc
    exact absurd hc (by simp)
  | cons t rest ih =>
    intro i cs h c hc
    obtain ⟨tx, sc, p⟩ := t
    simp only [proxGo] at h
    split_ifs at h with h1 h2
    · obtain ⟨⟨u, hu, hut⟩, hl⟩ := ih (i + 1) cs h c hc
      exact ⟨⟨u, List.mem_cons_of_mem _ hu, hut⟩, hl⟩
    · obtain ⟨⟨u, hu, hut⟩, hl⟩ := ih (i + 1) cs h c hc
      exact ⟨⟨u, List.mem_cons_of_mem _ hu, hut⟩, hl⟩
    · cases hcc : calculate_center p with
      | error e => simp only [hcc] at h; exact Except.noConfusion h
      | ok vc =>
        simp only [hcc] at h
        cases hrest : proxGo isLabel ai c0 (i + 1) rest with
        | error e => simp only [hrest] at h; exact Except.noConfusion h
        | ok cs' =>
          simp only [hrest] at h
          split_ifs at h with hdir
          · injection h with h'
            rw [← h'] at hc
            rcases List.mem_cons.mp hc with rfl | hmem
            · refine ⟨⟨(tx, sc, p), List.mem_cons_self _ _, rfl⟩, ?_⟩
              simpa using h2
            · obtain ⟨⟨u, hu, hut⟩, hl⟩ := ih (i + 1) cs' hrest c hmem
              exact ⟨⟨u, List.mem_cons_of_mem _ hu, hut⟩, hl⟩
          · injection h with h'
            rw [← h'] at hc
            obtain ⟨⟨u, hu, hut⟩, hl⟩ := ih (i + 1) cs' hrest c hc
            exact ⟨⟨u, List.mem_cons_of_mem _ hu, hut⟩, hl⟩

/-- A value returned by proximity extraction is the text of a non-label
token of the pool. -/
lemma proxCore_sound (isLabel : String → Bool) (data : List Tok) (ai : Nat)
    (v : String) (h : proxCore isLabel data ai = Except.ok (some v)) :
    (∃ t ∈ data, t.1 = v) ∧ isLabel v = false := by
  unfold proxCore at h
  split_ifs at h with hlen
  · injection h with h'
    exact Option.noConfusion h'
  · cases hcc : calculate_center (data.getD ai ("", 0, [])).2.2 with
    | error e => simp only [hcc] at h; exact Except.noConfusion h
    | ok c0 =>
      simp only [hcc] at h
      cases hgo : proxGo isLabel ai c0 0 data with
      | error e => simp only [hgo] at h; exact Except.noConfusion h
      | ok cs =>
        simp only [hgo] at h
        cases cs with
        | nil =>
          injection h with h'
          exact Option.noConfusion h'
        | cons c rest =>
          injection h with h'
          have hv : (bestCand c rest).text = v := by injection h'
          have hmem : bestCand c rest ∈ c :: rest := by
            rcases bestCand_mem c rest with he | he
            · rw [he]; exact List.mem_cons_self _ _
            · exact List.mem_cons_of_mem _ he
          obtain ⟨ht, hl⟩ := proxGo_sound isLabel ai c0 data 0 (c :: rest) hgo _ hmem
          rw [hv] at ht hl
          exact ⟨ht, hl⟩

/-- A `used_values.contains` test returning `false` means non-membership. -/
lemma contains_false_not_mem {l : List String} {v : String}
    (h : l.contains v = false) : v ∉ l := by
  intro hv
  have hc : l.contains v = true := List.elem_eq_true_of_mem hv
  rw [hc] at h
  exact Bool.noConfusion h

/-- Reading a field just written in an 18-back result dict. -/
lemma getB_setB (r : CNI18B.Rem18B) (f g : CNI18B.BField) (v : Option String) :
    CNI18B.getB (CNI18B.setB r f v) g = if g = f then v else CNI18B.getB r g := by
  cases f <;> cases g <;> simp [CNI18B.getB, CNI18B.setB]

/-- Except-valued fold preserving a state invariant. -/
lemma foldlM_inv {σ α : Type} (f : σ → α → Except String σ) (P : σ → Prop)
    (hf : ∀ s a s', f s a = Except.ok s' → P s → P s') :
    ∀ (l : List α) (s s' : σ), List.foldlM f s l = Except.ok s' → P s → P s' := by
  intro l
  induction l with
  | nil =>
    intro s s' h hs
    rw [List.foldlM_nil] at h
    injection h with h'
    rw [← h']
    exact hs
  | cons a t ih =>
    intro s s' h hs
    rw [List.foldlM_cons] at h
    cases hfa : f s a with
    | error e => rw [hfa] at h; exact Except.noConfusion h
    | ok s1 =>
      rw [hfa] at h
      exact ih s1 s' h (hf s a s1 hfa hs)

/-- Invariant of the 18-back anchor loop: every anchor-resolved value is a
non-label token text of the pool. -/
def LabelFreeB (data : List Tok) (s : CNI18B.RState18B) : Prop :=
  ∀ f v, CNI18B.getB s.results f = some v →
    CNI18B.is_likely_label v = false ∧ ∃ t ∈ data, t.1 = v

/-- One 18-back anchor step preserves the label-freedom invariant. -/
lemma stepAnchorB_inv (data : List Tok) (anchors : CNI18B.Anchors18B)
    (s : CNI18B.RState18B) (f : CNI18B.BField) (s' : CNI18B.RState18B)
    (h : CNI18B.stepAnchor data anchors s f = Except.ok s')
    (hs : LabelFreeB data s) : LabelFreeB data s' := by
  unfold CNI18B.stepAnchor at h
  cases anchors' : CNI18B.getAB anchors f with
  | nil =>
    simp only [anchors'] at h
    injection h with h'
    rw [← h']
    exact hs
  | cons a rest =>
    simp only [anchors'] at h
    cases hprox : CNI18B.extract_by_proximity data (CNI18F.bestBySim a rest).1
        (CNI18B.fNameB f) with
    | error e => simp only [hprox] at h; exact Except.noConfusion h
    | ok r =>
      simp only [hprox] at h
      cases r with
      | none =>
        injection h with h'
        rw [← h']
        exact hs
      | some v =>
        have h2 : (if v ≠ "" ∧ CNI18B.is_likely_label v = false ∧
              s.used_values.contains v = false then
              Except.ok { results := CNI18B.setB s.results f (some v),
                          used_values := s.used_values ++ [v] }
            else Except.ok s) = Except.ok s' := h
        split_ifs at h2 with hguard
        · injection h2 with h'
          rw [← h']
          intro g w hw
          rw [getB_setB] at hw
          split_ifs at hw with hgf
          · injection hw with hw'
            rw [← hw']
            have := proxCore_sound CNI18B.is_likely_label data
              (CNI18F.bestBySim a rest).1 v hprox
            exact ⟨hguard.2.1, this.1⟩
          · exact hs g w hw
        · injection h2 with h'
          rw [← h']
          exact hs

/-- The 18-back `autorite` pattern fallback returns a non-label token text
of the pool. -/
lemma autoriteScan_sound (uv : List String) (data : List Tok) (t : String)
    (h : CNI18B.autoriteScan uv data = some t) :
    CNI18B.is_likely_label t = false ∧ ∃ u ∈ data, u.1 = t := by
  induction data with
  | nil => exact Option.noConfusion h
  | cons a rest ih =>
    obtain ⟨tx, sc, p⟩ := a
    simp only [CNI18B.autoriteScan] at h
    split_ifs at h with h1 h2 h3
    · injection h with h'
      rw [← h']
      exact ⟨h3.2, ⟨(tx, sc, p), List.mem_cons_self _ _, rfl⟩⟩
    · obtain ⟨hl, u, hu, hut⟩ := ih h
      exact ⟨hl, u, List.mem_cons_of_mem _ hu, hut⟩
    · obtain ⟨hl, u, hu, hut⟩ := ih h
      exact ⟨hl, u, List.mem_cons_of_mem _ hu, hut⟩
    · obtain ⟨hl, u, hu, hut⟩ := ih h
      exact ⟨hl, u, List.mem_cons_of_mem _ hu, hut⟩

end OcrPoc

/-- C6: every value assigned by the 18-back remaining-field extraction to
`pere`, `mere`, `adresse` or `autorite` (the anchor/proximity-resolved and
fallback-resolved fields) is the text of a token of the pool that
`is_likely_label` classifies as a non-label; in particular a field whose
candidates are all labels stays absent. -/
theorem c6_values_never_labels (data : List OcrPoc.Tok)
    (anchors : OcrPoc.CNI18B.Anchors18B) (fixed : OcrPoc.CNI18B.Fixed18B)
    (r : OcrPoc.CNI18B.Rem18B) (f : OcrPoc.CNI18B.BField) (v : String)
    (h : OcrPoc.CNI18B.extract_remaining_fields data anchors fixed = Except.ok r)
    (hv : OcrPoc.CNI18B.getB r f = some v) :
    OcrPoc.CNI18B.is_likely_label v = false ∧ ∃ t ∈ data, t.1 = v := by
  unfold OcrPoc.CNI18B.extract_remaining_fields at h
  cases hph : OcrPoc.CNI18B.anchorPhase data anchors fixed with
  | error e => simp only [hph] at h; exact Except.noConfusion h
  | ok s =>
    simp only [hph] at h
    have hinv : OcrPoc.LabelFreeB data s := by
      refine OcrPoc.foldlM_inv (OcrPoc.CNI18B.stepAnchor data anchors)
        (OcrPoc.LabelFreeB data)
        (fun st a st' hst hPst => OcrPoc.stepAnchorB_inv data anchors st a st' hst hPst)
        _ _ _ hph ?_
      intro g w hw
      cases g <;> exact Option.noConfusion hw
    injection h with h'
    rw [← h'] at hv
    split_ifs at hv with haut
    · cases hscan : OcrPoc.CNI18B.autoriteScan s.used_values data with
      | none =>
        simp only [hscan] at hv
        exact hinv f v hv
      | some t =>
        simp only [hscan] at hv
        cases f with
        | autorite =>
          have hv' : some t = some v := hv
          injection hv' with hv''
          rw [← hv'']
          obtain ⟨hl, u, hu, hut⟩ := OcrPoc.autoriteScan_sound s.used_values data t hscan
          exact ⟨hl, u, hu, hut⟩
        | pere => exact hinv .pere v hv
        | mere => exact hinv .mere v hv
        | adresse => exact hinv .adresse v hv
    · exact hinv f v hv

namespace OcrPoc

/-- Pool for the C6 witness: a `PERE` label token and the value token
`KAMGA` to its right. -/
def c6_data : List Tok :=
  [("PERE", mkRat 19 20, pt 0 100), ("KAMGA", mkRat 19 20, pt 100 100)]

/-- Detected anchors for the C6 witness: a perfect `pere` anchor at index 0. -/
def c6_anchors : CNI18B.Anchors18B := ⟨[(0, "PERE", 1)], [], [], []⟩

/-- Fixed-format result for the C6 witness: nothing extracted. -/
def c6_fixed : CNI18B.Fixed18B := ⟨none, none, none, none, none, []⟩

end OcrPoc

/-- C6 witness: on the concrete pool `c6_data` with a `pere` anchor the
extraction assigns `pere := "KAMGA"`, and the theorem yields that `KAMGA`
is a non-label token text of the pool. -/
theorem c6_values_never_labels_witness :
    OcrPoc.CNI18B.is_likely_label "KAMGA" = false ∧
      ∃ t ∈ OcrPoc.c6_data, t.1 = "KAMGA" :=
  c6_values_never_labels OcrPoc.c6_data OcrPoc.c6_anchors OcrPoc.c6_fixed
    ⟨some "KAMGA", none, none, none, none⟩ OcrPoc.CNI18B.BField.pere "KAMGA"
    (by with_unfolding_all decide) rfl

namespace OcrPoc

/-- Reading a field just written in an 18-front result dict. -/
lemma getR_setR (r : CNI18F.Rem18F) (f g : CNI18F.F18) (v : Option String) :
    CNI18F.getR (CNI18F.setR r f v) g = if g = f then v else CNI18F.getR r g := by
  cases f <;> cases g <;> simp [CNI18F.getR, CNI18F.setR]

/-- Invariant of the 18-front anchor loop: every assigned value is recorded
in `used_values`, and distinct fields hold distinct values. -/
def DistinctR (s : CNI18F.RState18F) : Prop :=
  (∀ f v, CNI18F.getR s.results f = some v → v ∈ s.used_values) ∧
  (∀ f g v w, f ≠ g → CNI18F.getR s.results f = some v →
    CNI18F.getR s.results g = some w → v ≠ w)

/-- One 18-front anchor step preserves the distinct-values invariant: an
accepted value must pass the `value not in used_values` guard, and is then
added to `used_values`. -/
lemma stepAnchor18F_inv (data : List Tok) (anchors : CNI18F.Anchors18F)
    (s : CNI18F.RState18F) (f : CNI18F.F18) (s' : CNI18F.RState18F)
    (h : CNI18F.stepAnchor data anchors s f = Except.ok s')
    (hs : DistinctR s) : DistinctR s' := by
  unfold CNI18F.stepAnchor at h
  cases anc : CNI18F.getA anchors f with
  | nil =>
    simp only [anc] at h
    injection h with h'
    rw [← h']
    exact hs
  | cons a rest =>
    simp only [anc] at h
    cases hprox : CNI18F.extract_by_proximity data (CNI18F.bestBySim a rest).1
        (CNI18F.fName f) with
    | error e => simp only [hprox] at h; exact Except.noConfusion h
    | ok r =>
      simp only [hprox] at h
      cases r with
      | none =>
        injection h with h'
        rw [← h']
        exact hs
      | some v =>
        have h2 : (if v ≠ "" ∧ CNI18F.is_likely_label v = false ∧
              s.used_values.contains v = false then
              Except.ok { results := CNI18F.setR s.results f (some v),
                          used_indices := s.used_indices ++
                            (match data.findIdx? (fun t => t.1 == v) with
                             | some i => [i]
                             | none => []),
                          used_values := s.used_values ++ [v] }
            else Except.ok s) = Except.ok s' := h
        split_ifs at h2 with hguard
        · injection h2 with h'
          rw [← h']
          have hnotmem : v ∉ s.used_values := contains_false_not_mem hguard.2.2
          constructor
          · intro g w hw
            simp only [getR_setR] at hw
            split_ifs at hw with hgf
            · injection hw with hw'
              rw [← hw']
              exact List.mem_append_right _ (List.mem_singleton.mpr rfl)
            · exact List.mem_append_left _ (hs.1 g w hw)
          · intro f' g' v' w' hne hf' hg'
            simp only [getR_setR] at hf' hg'
            by_cases h1 : f' = f
            · rw [if_pos h1] at hf'
              injection hf' with hv1
              have hgf : g' ≠ f := fun hg => hne (h1.trans hg.symm)
              rw [if_neg hgf] at hg'
              intro heq
              apply hnotmem
              rw [hv1, heq]
              exact hs.1 g' w' hg'
            · rw [if_neg h1] at hf'
              by_cases hg2 : g' = f
              · rw [if_pos hg2] at hg'
                injection hg' with hv2
                intro heq
                apply hnotmem
                rw [hv2, ← heq]
                exact hs.1 f' v' hf'
              · rw [if_neg hg2] at hg'
                exact hs.2 f' g' v' w' hne hf' hg'
        · injection h2 with h'
          rw [← h']
          exact hs

end OcrPoc

namespace OcrPoc

/-- Invariant of the 18-back anchor loop: every assigned value is recorded
in `used_values`, and distinct fields hold distinct values. -/
def DistinctB (s : CNI18B.RState18B) : Prop :=
  (∀ f v, CNI18B.getB s.results f = some v → v ∈ s.used_values) ∧
  (∀ f g v w, f ≠ g → CNI18B.getB s.results f = some v →
    CNI18B.getB s.results g = some w → v ≠ w)

/-- One 18-back anchor step preserves the distinct-values invariant: an
accepted value must pass the `value not in used_values` guard, and is then
added to `used_values`. -/
lemma stepAnchorB_dist (data : List Tok) (anchors : CNI18B.Anchors18B)
    (s : CNI18B.RState18B) (f : CNI18B.BField) (s' : CNI18B.RState18B)
    (h : CNI18B.stepAnchor data anchors s f = Except.ok s')
    (hs : DistinctB s) : DistinctB s' := by
  unfold CNI18B.stepAnchor at h
  cases anc : CNI18B.getAB anchors f with
  | nil =>
    simp only [anc] at h
    injection h with h'
    rw [← h']
    exact hs
  | cons a rest =>
    simp only [anc] at h
    cases hprox : CNI18B.extract_by_proximity data (CNI18F.bestBySim a rest).1
        (CNI18B.fNameB f) with
    | error e => simp only [hprox] at h; exact Except.noConfusion h
    | ok r =>
      simp only [hprox] at h
      cases r with
      | none =>
        injection h with h'
        rw [← h']
        exact hs
      | some v =>
        have h2 : (if v ≠ "" ∧ CNI18B.is_likely_label v = false ∧
              s.used_values.contains v = false then
              Except.ok { results := CNI18B.setB s.results f (some v),
                          used_values := s.used_values ++ [v] }
            else Except.ok s) = Except.ok s' := h
        split_ifs at h2 with hguard
        · injection h2 with h'
          rw [← h']
          have hnotmem : v ∉ s.used_values := contains_false_not_mem hguard.2.2
          constructor
          · intro g w hw
            simp only [getB_setB] at hw
            split_ifs at hw with hgf
            · injection hw with hw'
              rw [← hw']
              exact List.mem_append_right _ (List.mem_singleton.mpr rfl)
            · exact List.mem_append_left _ (hs.1 g w hw)
          · intro f' g' v' w' hne hf' hg'
            simp only [getB_setB] at hf' hg'
            by_cases h1 : f' = f
            · rw [if_pos h1] at hf'
              injection hf' with hv1
              have hgf : g' ≠ f := fun hg => hne (h1.trans hg.symm)
              rw [if_neg hgf] at hg'
              intro heq
              apply hnotmem
              rw [hv1, heq]
              exact hs.1 g' w' hg'
            · rw [if_neg h1] at hf'
              by_cases hg2 : g' = f
              · rw [if_pos hg2] at hg'
                injection hg' with hv2
                intro heq
                apply hnotmem
                rw [hv2, ← heq]
                exact hs.1 f' v' hf'
              · rw [if_neg hg2] at hg'
                exact hs.2 f' g' v' w' hne hf' hg'
        · injection h2 with h'
          rw [← h']
          exact hs

end OcrPoc

/-- C9: within one run, the anchor/proximity loop of
`extract_remaining_fields` — in the 18-front extractor and in the 18-back
extractor alike — never assigns the same string value to two distinct
fields: a value already assigned (recorded in `used_values`) is rejected by
the acceptance guard for every later field, which then stays unresolved at
that stage. -/
theorem c9_anchor_values_distinct :
    (∀ (data : List OcrPoc.Tok) (anchors : OcrPoc.CNI18F.Anchors18F)
        (s : OcrPoc.CNI18F.RState18F),
      OcrPoc.CNI18F.anchorPhase data anchors = Except.ok s →
        ∀ f g v w, f ≠ g → OcrPoc.CNI18F.getR s.results f = some v →
          OcrPoc.CNI18F.getR s.results g = some w → v ≠ w) ∧
    (∀ (data : List OcrPoc.Tok) (anchors : OcrPoc.CNI18B.Anchors18B)
        (fixed : OcrPoc.CNI18B.Fixed18B) (s : OcrPoc.CNI18B.RState18B),
      OcrPoc.CNI18B.anchorPhase data anchors fixed = Except.ok s →
        ∀ f g v w, f ≠ g → OcrPoc.CNI18B.getB s.results f = some v →
          OcrPoc.CNI18B.getB s.results g = some w → v ≠ w) := by
  constructor
  · intro data anchors s h f g v w hfg hf hg
    have hinv : OcrPoc.DistinctR s := by
      refine OcrPoc.foldlM_inv (OcrPoc.CNI18F.stepAnchor data anchors)
        OcrPoc.DistinctR
        (fun st a st' hst hPst => OcrPoc.stepAnchor18F_inv data anchors st a st' hst hPst)
        _ _ _ h ⟨?_, ?_⟩
      · intro f' v' hv'
        cases f' <;> exact Option.noConfusion hv'
      · intro f' g' v' w' _ hv' _
        cases f' <;> exact Option.noConfusion hv'
    exact hinv.2 f g v w hfg hf hg
  · intro data anchors fixed s h f g v w hfg hf hg
    have hinv : OcrPoc.DistinctB s := by
      refine OcrPoc.foldlM_inv (OcrPoc.CNI18B.stepAnchor data anchors)
        OcrPoc.DistinctB
        (fun st a st' hst hPst => OcrPoc.stepAnchorB_dist data anchors st a st' hst hPst)
        _ _ _ h ⟨?_, ?_⟩
      · intro f' v' hv'
        cases f' <;> exact Option.noConfusion hv'
      · intro f' g' v' w' _ hv' _
        cases f' <;> exact Option.noConfusion hv'
    exact hinv.2 f g v w hfg hf hg

namespace OcrPoc

/-- Pool for the 18-front half of the C9 witness: two label tokens `NOM`
and `PRENOMS` with the value tokens `ALPHA` and `BETA` to their right. -/
def c9_data : List Tok :=
  [("NOM", mkRat 9 10, pt 0 100), ("ALPHA", mkRat 9 10, pt 100 100),
   ("PRENOMS", mkRat 9 10, pt 0 200), ("BETA", mkRat 9 10, pt 100 200)]

/-- Detected anchors for the 18-front half of the C9 witness. -/
def c9_anchors : CNI18F.Anchors18F := ⟨[(0, "NOM", 1)], [(2, "PRENOMS", 1)], [], []⟩

/-- Pool for the 18-back half of the C9 witness: label tokens `PERE` and
`MERE` with the value tokens `KAMGA` and `ZOYO` to their right. -/
def c9b_data : List Tok :=
  [("PERE", mkRat 9 10, pt 0 100), ("KAMGA", mkRat 9 10, pt 100 100),
   ("MERE", mkRat 9 10, pt 0 200), ("ZOYO", mkRat 9 10, pt 100 200)]

/-- Detected anchors for the 18-back half of the C9 witness. -/
def c9b_anchors : CNI18B.Anchors18B := ⟨[(0, "PERE", 1)], [(2, "MERE", 1)], [], []⟩

/-- Fixed-format result for the 18-back half of the C9 witness: nothing
extracted. -/
def c9b_fixed : CNI18B.Fixed18B := ⟨none, none, none, none, none, []⟩

end OcrPoc

/-- C9 witness: the 18-front loop assigns `nom := "ALPHA"` and `prenom :=
"BETA"` on `c9_data`, and the 18-back loop assigns `pere := "KAMGA"` and
`mere := "ZOYO"` on `c9b_data`; the theorem yields both distinctness
facts. -/
theorem c9_anchor_values_distinct_witness :
    ("ALPHA" ≠ "BETA") ∧ ("KAMGA" ≠ "ZOYO") :=
  ⟨c9_anchor_values_distinct.1 OcrPoc.c9_data OcrPoc.c9_anchors
      ⟨⟨some "ALPHA", some "BETA", none, none⟩, [1, 3], ["ALPHA", "BETA"]⟩
      (by with_unfolding_all decide)
      OcrPoc.CNI18F.F18.nom OcrPoc.CNI18F.F18.prenom "ALPHA" "BETA"
      (by decide) rfl rfl,
   c9_anchor_values_distinct.2 OcrPoc.c9b_data OcrPoc.c9b_anchors OcrPoc.c9b_fixed
      ⟨⟨some "KAMGA", some "ZOYO", none, none, none⟩, ["KAMGA", "ZOYO"]⟩
      (by with_unfolding_all decide)
      OcrPoc.CNI18B.BField.pere OcrPoc.CNI18B.BField.mere "KAMGA" "ZOYO"
      (by decide) rfl rfl⟩

/-- C7 witness: the gate-monotonicity theorem applied to a concrete
one-token input extended by a zero-confidence token. -/
theorem c7_gate_monotone_witness :
    (OcrPoc.CNI18F.assess_quality
        ⟨["A"] ++ ["B"], [mkRat 9 10] ++ [0], [OcrPoc.pt 5 5] ++ [OcrPoc.pt 5 15]⟩).2 =
      (OcrPoc.CNI18F.assess_quality ⟨["A"], [mkRat 9 10], [OcrPoc.pt 5 5]⟩).2 ∧
    ((OcrPoc.CNI18F.assess_quality ⟨["A"], [mkRat 9 10], [OcrPoc.pt 5 5]⟩).1 = true →
      (OcrPoc.CNI18F.assess_quality
        ⟨["A"] ++ ["B"], [mkRat 9 10] ++ [0], [OcrPoc.pt 5 5] ++ [OcrPoc.pt 5 15]⟩).1 = true) :=
  c7_gate_monotone_zero_token ["A"] [mkRat 9 10] [OcrPoc.pt 5 5] "B" (OcrPoc.pt 5 15) rfl
